import Mathlib

/-!
Verification of the livestock-data preprocessing pipeline
(`src/2_Scriptes/01_preprocess_livestock_data_generic_regions_v4g.py`).

The Python script is a single-pass, deterministic transformation of an
in-memory table.  We shallowly embed it here: pandas data frames become
lists of Lean structures, column operations become `List.map` /
`List.filter`, `groupby(...).sum()` becomes an explicit key-dedup plus
fiber summation, and the `sys.exit` error paths become an `Except`
result.  Numeric cell values are embedded as exact rationals `ℚ`
(the script's float arithmetic, idealized); strings are `List Char`
with Python's `strip` / `lower` / substring / word-boundary regex
semantics spelled out for the ASCII data the script handles.
-/

namespace Livestock

/-- Strings are modelled as lists of characters. -/
abbrev Str := List Char

/-- Coerce a Lean string literal to the `Str` model. -/
def str (s : String) : Str := s.data

/-- Python `\s` (ASCII whitespace, as produced by `str.strip` / `re \s`). -/
def isPySpace (c : Char) : Bool :=
  c == ' ' || c == '\t' || c == '\n' || c == '\r' || c == '\x0b' || c == '\x0c'

/-- Python `\w` word characters (ASCII range). -/
def isWordChar (c : Char) : Bool := c.isAlphanum || c == '_'

/-- Python `str.lower()` (ASCII range). -/
def pyLower (s : Str) : Str := s.map Char.toLower

/-- Python `str.upper()` (ASCII range). -/
def pyUpper (s : Str) : Str := s.map Char.toUpper

/-- Python `str.strip()`: drop leading and trailing whitespace. -/
def pyStrip (s : Str) : Str :=
  (s.dropWhile isPySpace).rdropWhile isPySpace

/-- Whether the pattern `pat` occurs in `s` starting at index `i`. -/
def substrAt (pat s : Str) (i : Nat) : Bool :=
  (s.drop i).take pat.length == pat

/-- Python `pat in s`: plain substring containment. -/
def containsSub (s pat : Str) : Bool :=
  (List.range (s.length + 1)).any (fun i => substrAt pat s i)

/-- Python `re.search(r"\b<w>\b", s)` for a pattern `w` whose first and
last characters are word characters: `w` occurs at a position with a
word boundary on both sides. -/
def wordBounded (w s : Str) : Bool :=
  (List.range (s.length + 1)).any (fun i =>
    substrAt w s i &&
    (i == 0 || !isWordChar (s.getD (i - 1) ' ')) &&
    (i + w.length >= s.length || !isWordChar (s.getD (i + w.length) ' ')))

/-- Python `s.replace(pat, rep)` with fuel (one unit per consumed input
character, so `s.length` units suffice): replace left-to-right,
non-overlapping occurrences of a non-empty pattern. -/
def replaceFuel (pat rep : Str) : Nat → Str → Str
  | 0, s => s
  | _ + 1, [] => []
  | n + 1, c :: rest =>
    if !pat.isEmpty && substrAt pat (c :: rest) 0 then
      rep ++ replaceFuel pat rep n (rest.drop (pat.length - 1))
    else
      c :: replaceFuel pat rep n rest

/-- Python `s.replace(pat, rep)`: replace left-to-right, non-overlapping
occurrences (for a non-empty pattern). -/
def replaceSub (pat rep s : Str) : Str := replaceFuel pat rep s.length s

/-- Python `re.sub(r"\s+", " ", s)`, processed one character at a time;
the flag records whether we are inside a whitespace run. -/
def collapseAux : Bool → Str → Str
  | _, [] => []
  | inRun, c :: rest =>
    if isPySpace c then
      if inRun then collapseAux true rest
      else ' ' :: collapseAux true rest
    else c :: collapseAux false rest

/-- Python `re.sub(r"\s+", " ", s)`: collapse every maximal whitespace
run into a single space. -/
def collapseWS (s : Str) : Str := collapseAux false s

/-- Digits of a year-column suffix parsed as a natural number
(Python `astype(int)` on a digit string). -/
def digitsToNat (s : Str) : Nat :=
  s.foldl (fun acc c => acc * 10 + (c.toNat - 48)) 0

/-! ## Static reference data of the script (lines 24-41). -/

def ALL_ANIMALS_LIST : List Str :=
  [str "All animals", str "All animal", str "All livestock",
   str "Total animals", str "Animals, all"]

def AGGREGATE_LIST : List Str :=
  [str "Camels and Llamas", str "Cattle", str "Mules and Asses",
   str "Poultry Birds", str "Sheep and Goats", str "Swine"]

def ATOMIC_LIST : List Str :=
  [str "Asses", str "Buffalo", str "Camels", str "Swine, breeding",
   str "Swine, market", str "Turkeys", str "Cattle, dairy",
   str "Cattle, non-dairy", str "Chickens, broilers", str "Chickens, layers",
   str "Ducks", str "Goats", str "Horses", str "Sheep"]

/-- `EXCLUDE_ITEMS`, already lower-cased as in the script. -/
def EXCLUDE_ITEMS : List Str :=
  [str "chickens", str "mules and hinnies", str "(blank)", str ""]

def EU : List Str :=
  [str "Austria", str "Belgium", str "Bulgaria", str "Croatia", str "Cyprus",
   str "Czechia", str "Czech Republic", str "Denmark", str "Estonia",
   str "Finland", str "France", str "Germany", str "Greece", str "Hungary",
   str "Ireland", str "Italy", str "Latvia", str "Lithuania",
   str "Luxembourg", str "Malta", str "Netherlands", str "Poland",
   str "Portugal", str "Romania", str "Slovakia", str "Slovenia",
   str "Spain", str "Sweden"]

/-- `EEA_PLUS_UK = EU.union({...})`. -/
def EEA_PLUS_UK : List Str :=
  EU ++ [str "Iceland", str "Liechtenstein", str "Norway",
         str "United Kingdom", str "UK"]

def EUROPE_WIDE : List Str :=
  [str "Albania", str "Andorra", str "Armenia", str "Austria",
   str "Azerbaijan", str "Belarus", str "Belgium",
   str "Bosnia and Herzegovina", str "Bulgaria", str "Croatia",
   str "Cyprus", str "Czechia", str "Czech Republic", str "Denmark",
   str "Estonia", str "Finland", str "France", str "Georgia",
   str "Germany", str "Greece", str "Hungary", str "Iceland",
   str "Ireland", str "Italy", str "Kazakhstan", str "Kosovo",
   str "Latvia", str "Liechtenstein", str "Lithuania", str "Luxembourg",
   str "Malta", str "Moldova", str "Monaco", str "Montenegro",
   str "Netherlands", str "North Macedonia", str "Norway", str "Poland",
   str "Portugal", str "Romania", str "Russia", str "San Marino",
   str "Serbia", str "Slovakia", str "Slovenia", str "Spain",
   str "Sweden", str "Switzerland", str "Turkey", str "Ukraine",
   str "United Kingdom", str "UK", str "Vatican City"]

/-! ## The script's pure helper functions (lines 43-98). -/

/-- `detect_year_cols`: columns starting with `Y` whose remainder is a
non-empty digit string. -/
def isYearCol (c : Str) : Bool :=
  match c with
  | [] => false
  | h :: tl => h == 'Y' && !tl.isEmpty && tl.all (fun d => d.isDigit)

def detect_year_cols (cols : List Str) : List Str := cols.filter isYearCol

/-- `normalize_element` (lines 46-52).  The input is stripped and
lower-cased, then matched against `(^stocks?$|\bstock\b)`, `\b(ch4|methane)\b`
and `\b(n2o|nitrous)\b` in turn. -/
def normalize_element (e : Str) : Option Str :=
  let s := pyLower (pyStrip e)
  if s == str "stock" || s == str "stocks" || wordBounded (str "stock") s then
    some (str "Stocks")
  else if wordBounded (str "ch4") s || wordBounded (str "methane") s then
    some (str "CH4")
  else if wordBounded (str "n2o") s || wordBounded (str "nitrous") s then
    some (str "N2O")
  else none

/-- `gwp_pair` (lines 54-55): (CH4 factor, N2O factor) by convention name,
with the `AR6_NOCCF` pair as the fallback. -/
def gwp_pair (name : Str) : ℚ × ℚ :=
  let k := pyUpper (pyStrip name)
  if k == str "AR4" then ((25 : ℚ), (298 : ℚ))
  else if k == str "AR5" then ((28 : ℚ), (265 : ℚ))
  else if k == str "AR6_NOCCF" then ((27.2 : ℚ), (273 : ℚ))
  else if k == str "AR6_CCF" then ((29.8 : ℚ), (273 : ℚ))
  else ((27.2 : ℚ), (273 : ℚ))

/-- The lower-cased, `non dairy`-rewritten, whitespace-collapsed form used
by `canonical_item` for matching (lines 62-64). -/
def itemLow (s : Str) : Str :=
  collapseWS (replaceSub (str "non dairy") (str "non-dairy") (pyLower s))

/-- Whether the normalized label mentions cattle or bovine (line 65). -/
def mentionsCattle (low : Str) : Bool :=
  containsSub low (str "cattle") || containsSub low (str "bovine")

/-- `canonical_item` (lines 61-71): cattle/bovine labels are folded onto
one of three canonical cattle labels (`non-dairy`/`other` checked before
`dairy`); every other label is returned stripped. -/
def canonical_item (item : Str) : Str :=
  if mentionsCattle (itemLow (pyStrip item)) then
    if wordBounded (str "non-dairy") (itemLow (pyStrip item))
        || wordBounded (str "nondairy") (itemLow (pyStrip item))
        || wordBounded (str "other") (itemLow (pyStrip item)) then
      str "Cattle, non-dairy"
    else if wordBounded (str "dairy") (itemLow (pyStrip item)) then
      str "Cattle, dairy"
    else
      str "Cattle"
  else pyStrip item

/-- `item_kind` (lines 73-78): classify a canonicalized label by
case-insensitive lookup in the three vocabularies; fall back to `atomic`. -/
def item_kind (label : Str) : Str :=
  let low := pyLower (canonical_item label)
  if (ALL_ANIMALS_LIST.map pyLower).contains low then str "All"
  else if (AGGREGATE_LIST.map pyLower).contains low then str "aggregated"
  else if (ATOMIC_LIST.map pyLower).contains low then str "atomic"
  else str "atomic"

/-- `default_lsu_weight` (lines 80-89): substring-based weight lookup on
the lower-cased canonical label. -/
def default_lsu_weight (item : Str) : ℚ :=
  let il := pyLower (canonical_item item)
  if containsSub il (str "dairy") && containsSub il (str "cattle") then 1
  else if containsSub il (str "cattle") then (0.8 : ℚ)
  else if containsSub il (str "buffalo") then 1
  else if containsSub il (str "sheep") || containsSub il (str "goat") then (0.1 : ℚ)
  else if containsSub il (str "pig") || containsSub il (str "swine") then (0.3 : ℚ)
  else if containsSub il (str "poultry") || containsSub il (str "chicken")
      || containsSub il (str "turkey") || containsSub il (str "duck") then (0.01 : ℚ)
  else if containsSub il (str "horse") || containsSub il (str "equid") then (0.8 : ℚ)
  else 1

/-- `is_livestock_total_element` (lines 91-94): case-insensitive substring
search for both `livestock` and `total`. -/
def is_livestock_total_element (label : Str) : Bool :=
  containsSub (pyLower label) (str "livestock") &&
  containsSub (pyLower label) (str "total")

/-- `region_flags` (lines 96-98): `(in EUROPE_WIDE, in EU, in EEA_PLUS_UK)`
of the stripped area name. -/
def region_flags (area : Str) : Bool × Bool × Bool :=
  let a := pyStrip area
  (EUROPE_WIDE.contains a, EU.contains a, EEA_PLUS_UK.contains a)

/-! ## Data model of the pipeline (`main`, lines 100-254).

A raw CSV is a header (column names) plus rows.  Each row carries the
three required text fields and the numeric cells of the year columns,
keyed by column name.  Cell values are exact rationals. -/

structure RawRow where
  area : Str
  item : Str
  element : Str
  vals : List (Str × ℚ)
deriving DecidableEq, Repr

structure RawTable where
  cols : List Str
  rows : List RawRow
deriving DecidableEq, Repr

/-- The recognized configuration options, after CLI parsing: the GWP
convention name, the parsed `--split-cattle` / `--only-livestock-total`
booleans, and the raw `--dairy-share` percentage. -/
structure Config where
  gwp : Str
  splitCattle : Bool
  dairyShare : ℚ
  onlyLivestockTotal : Bool
deriving DecidableEq, Repr

/-- `dairy_frac` (line 112): percentage over 100, clamped to `[0, 1]`. -/
def dairyFrac (cfg : Config) : ℚ := max 0 (min 1 (cfg.dairyShare / 100))

/-- Required columns (line 123). -/
def requiredCols : List Str := [str "Area", str "Item", str "Element"]

/-- Schema check (lines 123-126): all required columns present. -/
def hasRequired (t : RawTable) : Bool :=
  requiredCols.all (fun c => t.cols.contains c)

/-- Year columns of the table (line 135). -/
def yearCols (t : RawTable) : List Str := detect_year_cols t.cols

/-- Line 129: strip the three text columns. -/
def stripRow (r : RawRow) : RawRow :=
  { r with area := pyStrip r.area, item := pyStrip r.item,
           element := pyStrip r.element }

/-- The exclusion test of lines 132 and 244: the stripped, lower-cased
item label is not in `EXCLUDE_ITEMS`. -/
def excludeOK (item : Str) : Bool :=
  !(EXCLUDE_ITEMS.contains (pyLower (pyStrip item)))

/-- Lines 128-133: strip text columns, drop excluded item labels,
canonicalize the item labels. -/
def canonRows (t : RawTable) : List RawRow :=
  ((t.rows.map stripRow).filter (fun r => excludeOK r.item)).map
    (fun r => { r with item := canonical_item r.item })

/-- A row with its computed `ElementNorm` (line 139 onwards). -/
structure PreRow where
  area : Str
  item : Str
  element : Str
  norm : Str
  vals : List (Str × ℚ)
deriving DecidableEq, Repr

/-- Lines 139-140: attach `ElementNorm` and drop unrecognized elements. -/
def normRows (t : RawTable) : List PreRow :=
  (canonRows t).filterMap (fun r =>
    (normalize_element r.element).map (fun n =>
      PreRow.mk r.area r.item r.element n r.vals))

/-- The `only_lt` keep-predicate of lines 141-144: a row survives unless
it is a CH4/N2O row whose element label is not a livestock total. -/
def onlyLtKeep (r : PreRow) : Bool :=
  !(r.norm == str "CH4" || r.norm == str "N2O") ||
  is_livestock_total_element r.element

/-- Lines 139-144: element normalization plus the optional
livestock-total restriction. -/
def elemRows (cfg : Config) (t : RawTable) : List PreRow :=
  if cfg.onlyLivestockTotal then (normRows t).filter onlyLtKeep
  else normRows t

/-- One melted long-format row (lines 146-162): identifiers, the
`item_kind` / boolean flags, region flags, and one (Year, Value) pair. -/
structure LRow where
  area : Str
  item : Str
  element : Str
  norm : Str
  kind : Str
  isAll : Bool
  isAgg : Bool
  isAtomic : Bool
  regionEU : Bool
  regionEUEEAUK : Bool
  regionEurope : Bool
  year : Nat
  value : ℚ
deriving DecidableEq, Repr

/-- Value of a named column in a raw row. -/
def lookupVal (vals : List (Str × ℚ)) (c : Str) : ℚ :=
  ((vals.find? (fun p => p.1 == c)).map Prod.snd).getD 0

/-- Lines 146-162: compute `item_kind`, the kind flags and region flags
per row, then melt each year column into a long row.  (The script
computes the flag columns before melting; melting repeats them per year
column, so computing them per melted row is the same function.) -/
def longRows (cfg : Config) (t : RawTable) : List LRow :=
  (yearCols t).flatMap (fun yc =>
    (elemRows cfg t).map (fun r =>
      let k := item_kind r.item
      let fl := region_flags r.area
      { area := r.area, item := r.item, element := r.element, norm := r.norm,
        kind := k,
        isAll := k == str "All", isAgg := k == str "aggregated",
        isAtomic := k == str "atomic",
        regionEurope := fl.1, regionEU := fl.2.1, regionEUEEAUK := fl.2.2,
        year := digitsToNat (yc.drop 1), value := lookupVal r.vals yc }))

/-- A row of one of the per-metric frames: the column selection
`["Area","Item","Year","Value","item_kind","is_all","is_aggregated","is_atomic"]`. -/
structure MRow where
  area : Str
  item : Str
  year : Nat
  value : ℚ
  kind : Str
  isAll : Bool
  isAgg : Bool
  isAtomic : Bool
deriving DecidableEq, Repr

def toMRow (r : LRow) : MRow :=
  ⟨r.area, r.item, r.year, r.value, r.kind, r.isAll, r.isAgg, r.isAtomic⟩

/-- The grouping key used by every `groupby` in the script:
`(Area, Item, Year, item_kind, is_all, is_aggregated, is_atomic)`. -/
structure MKey where
  area : Str
  item : Str
  year : Nat
  kind : Str
  isAll : Bool
  isAgg : Bool
  isAtomic : Bool
deriving DecidableEq, Repr

def mkey (r : MRow) : MKey :=
  ⟨r.area, r.item, r.year, r.kind, r.isAll, r.isAgg, r.isAtomic⟩

def buildRow (k : MKey) (v : ℚ) : MRow :=
  ⟨k.area, k.item, k.year, v, k.kind, k.isAll, k.isAgg, k.isAtomic⟩

/-- Total of the values of the rows with group key `k`. -/
def fiberSum (rows : List MRow) (k : MKey) : ℚ :=
  ((rows.filter (fun r => mkey r == k)).map (fun r => r.value)).sum

/-- `groupby([...], as_index=False)["Value"].sum()`: one row per distinct
group key, holding the summed value of its fiber. -/
def groupSum (rows : List MRow) : List MRow :=
  ((rows.map mkey).dedup).map (fun k => buildRow k (fiberSum rows k))

/-- The Stocks frame (line 167). -/
def stocksRows (cfg : Config) (t : RawTable) : List MRow :=
  ((longRows cfg t).filter (fun r => r.norm == str "Stocks")).map toMRow

/-- The CH4 frame after GWP conversion (lines 172-174), before grouping. -/
def ch4Rows (cfg : Config) (t : RawTable) : List MRow :=
  ((longRows cfg t).filter (fun r => r.norm == str "CH4")).map
    (fun r => { toMRow r with value := r.value * (gwp_pair cfg.gwp).1 })

/-- The N2O frame after GWP conversion (lines 179-181), before grouping. -/
def n2oRows (cfg : Config) (t : RawTable) : List MRow :=
  ((longRows cfg t).filter (fun r => r.norm == str "N2O")).map
    (fun r => { toMRow r with value := r.value * (gwp_pair cfg.gwp).2 })

/-- Value of the (unique-keyed) row with group key `k`, if present. -/
def lookupV (rows : List MRow) (k : MKey) : Option ℚ :=
  (rows.find? (fun r => mkey r == k)).map (fun r => r.value)

/-- Lines 186-192: outer-merge the grouped CH4 and N2O frames on the
group key (left keys first, then unmatched right keys — pandas outer
merge), treat a missing side as 0, and sum the two columns. -/
def totalRows (c n : List MRow) : List MRow :=
  let ck := c.map mkey
  let nk := n.map mkey
  let keys := ck ++ nk.filter (fun k => !ck.contains k)
  keys.map (fun k => buildRow k ((lookupV c k).getD 0 + (lookupV n k).getD 0))

/-- The two atomic cattle labels (line 201). -/
def cattleAtoms : List Str := [str "Cattle, dairy", str "Cattle, non-dairy"]

/-- `keys_atomic` (lines 201-202): the (Area, Year) keys at which an
atomic cattle row already exists. -/
def keysAtomicOf (sb : List MRow) : List (Str × Nat) :=
  (sb.filter (fun r => cattleAtoms.contains r.item)).map
    (fun r => (r.area, r.year))

/-- The generic-cattle mask `Item.str.fullmatch(r"(?i)cattle")` (line 205). -/
def genericQ (r : MRow) : Bool := pyLower r.item == str "cattle"

/-- `split_mask` (line 211): the row's (Area, Year) is not among
`keys_atomic`. -/
def splitQOf (sb : List MRow) (r : MRow) : Bool :=
  !(keysAtomicOf sb).contains (r.area, r.year)

/-- The derived dairy row of a split generic row (lines 216-219). -/
def dairyOf (f : ℚ) (r : MRow) : MRow :=
  { r with value := r.value * f, item := str "Cattle, dairy",
           kind := str "atomic", isAll := false, isAgg := false,
           isAtomic := true }

/-- The derived non-dairy row of a split generic row (lines 221-224). -/
def otherOf (f : ℚ) (r : MRow) : MRow :=
  { r with value := r.value * (1 - f), item := str "Cattle, non-dairy",
           kind := str "atomic", isAll := false, isAgg := false,
           isAtomic := true }

/-- The guarded cattle split (lines 199-228), applied to the stocks
frame (`value` holds the `Stocks` column).  Generic `Cattle` rows are
split into dairy/non-dairy rows for exactly the `(Area, Year)` keys with
no pre-existing atomic cattle row. -/
def splitStep (f : ℚ) (sb : List MRow) : List MRow :=
  let cattle := sb.filter genericQ
  let nonCattle := sb.filter (fun r => !genericQ r)
  if cattle.isEmpty then sb
  else
    let toSplit := cattle.filter (splitQOf sb)
    let keepGeneric := cattle.filter (fun r => !splitQOf sb r)
    if toSplit.isEmpty then nonCattle ++ keepGeneric
    else nonCattle ++ keepGeneric ++ toSplit.map (dairyOf f) ++
      toSplit.map (otherOf f)

/-- Line 196-197: the stocks frame with `Item` re-canonicalized, the
input of the LSU computation. -/
def lsuBase (cfg : Config) (t : RawTable) : List MRow :=
  (stocksRows cfg t).map (fun r => { r with item := canonical_item r.item })

/-- Lines 194-235: the LSU frame — optional guarded split, per-item
weight multiplication, and the final grouping. -/
def lsuRows (cfg : Config) (t : RawTable) : List MRow :=
  let sb0 := lsuBase cfg t
  let sb1 := if cfg.splitCattle then splitStep (dairyFrac cfg) sb0 else sb0
  groupSum (sb1.map (fun r =>
    { r with value := r.value * default_lsu_weight r.item }))

/-- Lines 164-235: the per-metric frames, tagged with their `Metric`
value, in the order the script appends them. -/
def preparedF (cfg : Config) (t : RawTable) : List (Str × List MRow) :=
  let st := stocksRows cfg t
  let c := ch4Rows cfg t
  let n := n2oRows cfg t
  (if st.isEmpty then [] else [(str "Stocks", st)]) ++
  (if c.isEmpty then [] else [(str "CH4_CO2e", groupSum c)]) ++
  (if n.isEmpty then [] else [(str "N2O_CO2e", groupSum n)]) ++
  (if c.isEmpty && n.isEmpty then []
   else [(str "Total_CO2e", totalRows (groupSum c) (groupSum n))]) ++
  (if st.isEmpty then [] else [(str "LSU", lsuRows cfg t)])

/-- A row of the written output table, in the fixed column order of
line 251-253. -/
structure OutRow where
  area : Str
  item : Str
  year : Nat
  metric : Str
  value : ℚ
  kind : Str
  isAll : Bool
  isAgg : Bool
  isAtomic : Bool
  regionEU : Bool
  regionEUEEAUK : Bool
  regionEurope : Bool
deriving DecidableEq, Repr

/-- Tag a metric-frame row with its `Metric`; the region flag columns do
not exist yet (they are assigned at lines 246-249). -/
def toOutRow (metric : Str) (r : MRow) : OutRow :=
  ⟨r.area, r.item, r.year, metric, r.value, r.kind, r.isAll, r.isAgg,
   r.isAtomic, false, false, false⟩

/-- Lexicographic order on character lists by code point
(Python string comparison). -/
def strLe : Str → Str → Bool
  | [], _ => true
  | _ :: _, [] => false
  | a :: s2, b :: t2 => if a == b then strLe s2 t2 else Nat.blt a.toNat b.toNat

/-- The `sort_values(["Area","Item","Year","Metric"])` comparison. -/
def outLe (a b : OutRow) : Bool :=
  if a.area == b.area then
    if a.item == b.item then
      if a.year == b.year then strLe a.metric b.metric
      else Nat.blt a.year b.year
    else strLe a.item b.item
  else strLe a.area b.area

/-- Final region-flag assignment of lines 246-249. -/
def withFlags (r : OutRow) : OutRow :=
  let fl := region_flags r.area
  { r with regionEurope := fl.1, regionEU := fl.2.1, regionEUEEAUK := fl.2.2 }

/-- Lines 240-253: concatenate the tagged frames, sort, re-canonicalize
and re-filter the item labels, and recompute the region flags.  (pandas
`sort_values` uses an unstable quicksort; we sort with insertion sort —
the output is some sorted permutation either way, and ties in the sort
key are only reordered among themselves.) -/
def outRowsF (cfg : Config) (t : RawTable) : List OutRow :=
  let concatd := (preparedF cfg t).flatMap (fun p => p.2.map (toOutRow p.1))
  let sorted := concatd.insertionSort (fun a b => outLe a b = true)
  let canoned := sorted.map (fun r => { r with item := canonical_item r.item })
  let filtered := canoned.filter (fun r => excludeOK r.item)
  filtered.map withFlags

/-- `main` as a function from configuration and input table to either a
fatal-error message or the written output rows (lines 100-254).  The
file is written if and only if the result is `ok`; every `sys.exit`
before the write yields `error` and writes nothing. -/
def runPipeline (cfg : Config) (t : RawTable) : Except Str (List OutRow) :=
  if !hasRequired t then Except.error (str "ERROR: CSV missing columns")
  else if (yearCols t).isEmpty then
    Except.error (str "ERROR: No year columns found")
  else if (preparedF cfg t).isEmpty then Except.error (str "Nothing to write.")
  else Except.ok (outRowsF cfg t)

/-! ## Concrete fixtures and spec-level predicates used by the claims. -/

/-- The default configuration of the CLI (lines 104-107):
`--gwp AR6_NOCCF --split-cattle true --dairy-share 35 --only-livestock-total true`. -/
def defaultCfg : Config := ⟨str "AR6_NOCCF", true, 35, true⟩

/-- The input of the spec's first scenario:
one row (Area=Austria, Item=Cattle, Element=Stock, Y2020=100). -/
def c1Table : RawTable :=
  ⟨[str "Area", str "Item", str "Element", str "Y2020"],
   [⟨str "Austria", str "Cattle", str "Stock", [(str "Y2020", 100)]⟩]⟩

/-- The Stocks output row the pipeline produces on `c1Table`. -/
def c1StocksOut : OutRow :=
  ⟨str "Austria", str "Cattle", 2020, str "Stocks", 100, str "aggregated",
   false, true, false, true, true, true⟩

/-- The dairy LSU output row the pipeline produces on `c1Table`. -/
def c1DairyOut : OutRow :=
  ⟨str "Austria", str "Cattle, dairy", 2020, str "LSU", 35, str "atomic",
   false, false, true, true, true, true⟩

/-- The non-dairy LSU output row the pipeline produces on `c1Table`:
its value is 65, because `default_lsu_weight` matches the substring
`dairy` inside `non-dairy` and applies weight 1 instead of 0.8. -/
def c1NonDairyOut : OutRow :=
  ⟨str "Austria", str "Cattle, non-dairy", 2020, str "LSU", 65, str "atomic",
   false, false, true, true, true, true⟩

/-- An input with two identical Stocks rows for the same
(Area, Item, Year): the Stocks frame is never grouped, so both reach
the output. -/
def dupTable : RawTable :=
  ⟨[str "Area", str "Item", str "Element", str "Y2020"],
   [⟨str "Austria", str "Sheep", str "Stocks", [(str "Y2020", 1)]⟩,
    ⟨str "Austria", str "Sheep", str "Stocks", [(str "Y2020", 1)]⟩]⟩

/-- An input with one CH4 and one N2O livestock-total row for the same
(Area, Item, Year). -/
def gasTable : RawTable :=
  ⟨[str "Area", str "Item", str "Element", str "Y2020"],
   [⟨str "Austria", str "Sheep", str "Emissions (CH4) Livestock total",
     [(str "Y2020", 10)]⟩,
    ⟨str "Austria", str "Sheep", str "Emissions (N2O) Livestock total",
     [(str "Y2020", 2)]⟩]⟩

/-- The group key of both rows of `gasTable` after melting. -/
def gasKey : MKey :=
  ⟨str "Austria", str "Sheep", 2020, str "atomic", false, false, true⟩

/-- An input whose only row has Element `Enteric fermentation`
(normalizes to no recognized element). -/
def entericTable : RawTable :=
  ⟨[str "Area", str "Item", str "Element", str "Y2020"],
   [⟨str "Austria", str "Sheep", str "Enteric fermentation",
     [(str "Y2020", 5)]⟩]⟩

/-- The `PreRow` of `gasTable`'s CH4 row after element normalization. -/
def ch4PreRow : PreRow :=
  ⟨str "Austria", str "Sheep", str "Emissions (CH4) Livestock total",
   str "CH4", [(str "Y2020", 10)]⟩

/-- A stocks frame that already contains an atomic cattle row next to a
generic Cattle row for the same (Area, Year). -/
def c3Sb : List MRow :=
  [⟨str "Austria", str "Cattle, dairy", 2020, 10, str "atomic",
    false, false, true⟩,
   ⟨str "Austria", str "Cattle", 2020, 100, str "aggregated",
    false, true, false⟩]

/-- The output-table key tuple named by the spec's uniqueness invariant. -/
def outKey4 (r : OutRow) : Str × Str × Nat × Str :=
  (r.area, r.item, r.year, r.metric)

/-- The spec's key-uniqueness invariant: all output rows have pairwise
distinct (Area, Item, Year, Metric) tuples. -/
def keysUnique (out : List OutRow) : Prop :=
  out.Pairwise (fun a b => outKey4 a ≠ outKey4 b)

/-- The group-key component of an output row. -/
def okey (r : OutRow) : MKey :=
  ⟨r.area, r.item, r.year, r.kind, r.isAll, r.isAgg, r.isAtomic⟩

/-- Relation carried by the concatenated output rows: two rows with the
same non-Stocks metric never share a full group key. -/
def RgoodO (a b : OutRow) : Prop :=
  (a.metric = b.metric ∧ ¬ a.metric = str "Stocks") → ¬ okey a = okey b

/-- Invariant of every group key the pipeline manufactures: its item
label is a `canonical_item` fixed point that survives the exclusion
filter, and its kind/flag components are the functions of the item label
that the script computes at melt time. -/
def GoodK (k : MKey) : Prop :=
  canonical_item k.item = k.item ∧ excludeOK k.item = true ∧
  k.kind = item_kind k.item ∧
  k.isAll = (item_kind k.item == str "All") ∧
  k.isAgg = (item_kind k.item == str "aggregated") ∧
  k.isAtomic = (item_kind k.item == str "atomic")

/-- Sum of the values of the rows at `(A, Y)` whose item satisfies `p`. -/
def sumAtKey (rows : List MRow) (A : Str) (Y : Nat) (p : Str → Bool) : ℚ :=
  ((rows.filter (fun r => r.area == A && r.year == Y && p r.item)).map
    (fun r => r.value)).sum

/-- Sum of the values of the rows whose group key satisfies `q`. -/
def sumOverK (q : MKey → Bool) (rows : List MRow) : ℚ :=
  ((rows.filter (fun r => q (mkey r))).map (fun r => r.value)).sum

instance exceptDecEq {ε α : Type} [DecidableEq ε] [DecidableEq α] :
    DecidableEq (Except ε α)
  | Except.ok a, Except.ok b =>
    if h : a = b then isTrue (by rw [h]) else isFalse (by intro hc; cases hc; exact h rfl)
  | Except.error a, Except.error b =>
    if h : a = b then isTrue (by rw [h]) else isFalse (by intro hc; cases hc; exact h rfl)
  | Except.ok _, Except.error _ => isFalse (by intro hc; cases hc)
  | Except.error _, Except.ok _ => isFalse (by intro hc; cases hc)

instance keysUniqueDec (out : List OutRow) : Decidable (keysUnique out) :=
  inferInstanceAs (Decidable (out.Pairwise (fun a b => outKey4 a ≠ outKey4 b)))

/-! ## String lemmas. -/

theorem dropWhile_prefix_eq {α} (p : α → Bool) (m r : List α)
    (hm : List.dropWhile p m = m) (hpre : r <+: m) :
    List.dropWhile p r = r := by
  cases r with
  | nil => simp
  | cons a t =>
    obtain ⟨u, hu⟩ := hpre
    have ha : ¬ p a = true := by
      rw [← hu] at hm
      intro hpa
      rw [List.cons_append, List.dropWhile_cons_of_pos hpa] at hm
      have hlen := congrArg List.length hm
      have hle := (List.dropWhile_sublist (l := t ++ u) p).length_le
      simp only [List.length_cons] at hlen
      omega
    simp [List.dropWhile_cons_of_neg ha]

theorem pyStrip_idem (s : Str) : pyStrip (pyStrip s) = pyStrip s := by
  unfold pyStrip
  rw [dropWhile_prefix_eq isPySpace (List.dropWhile isPySpace s) _
        (List.dropWhile_idempotent isPySpace _) (List.rdropWhile_prefix _ _),
      List.rdropWhile_idempotent]

theorem canonical_item_cases (s : Str) :
    canonical_item s = pyStrip s ∨ canonical_item s = str "Cattle, non-dairy" ∨
    canonical_item s = str "Cattle, dairy" ∨ canonical_item s = str "Cattle" := by
  unfold canonical_item
  by_cases h1 : mentionsCattle (itemLow (pyStrip s)) = true
  · rw [if_pos h1]
    by_cases h2 : (wordBounded (str "non-dairy") (itemLow (pyStrip s))
        || wordBounded (str "nondairy") (itemLow (pyStrip s))
        || wordBounded (str "other") (itemLow (pyStrip s))) = true
    · rw [if_pos h2]; right; left; rfl
    · rw [if_neg h2]
      by_cases h3 : wordBounded (str "dairy") (itemLow (pyStrip s)) = true
      · rw [if_pos h3]; right; right; left; rfl
      · rw [if_neg h3]; right; right; right; rfl
  · rw [if_neg h1]; left; rfl

/-- When the normalized label mentions neither cattle nor bovine, the
canonicalizer returns exactly the stripped label. -/
theorem canonical_item_of_not_cattle (s : Str)
    (h : mentionsCattle (itemLow (pyStrip s)) = false) :
    canonical_item s = pyStrip s := by
  unfold canonical_item
  rw [if_neg (by simp [h])]

/-- Idempotence of the canonicalizer (helper shared by several proofs). -/
theorem canonical_item_idem_aux (s : Str) :
    canonical_item (canonical_item s) = canonical_item s := by
  rcases canonical_item_cases s with h | h | h | h
  · rw [h]
    by_cases hc : mentionsCattle (itemLow (pyStrip (pyStrip s))) = true
    · unfold canonical_item
      rw [pyStrip_idem] at hc ⊢
      rw [if_pos hc]
      have hc2 : mentionsCattle (itemLow (pyStrip s)) = true := hc
      have : canonical_item s = pyStrip s := h
      unfold canonical_item at this
      rw [if_pos hc2] at this
      by_cases h2 : (wordBounded (str "non-dairy") (itemLow (pyStrip s))
          || wordBounded (str "nondairy") (itemLow (pyStrip s))
          || wordBounded (str "other") (itemLow (pyStrip s))) = true
      · rw [if_pos h2] at this ⊢; exact this
      · rw [if_neg h2] at this ⊢
        by_cases h3 : wordBounded (str "dairy") (itemLow (pyStrip s)) = true
        · rw [if_pos h3] at this ⊢; exact this
        · rw [if_neg h3] at this ⊢; exact this
    · rw [canonical_item_of_not_cattle _ (by simpa using hc), pyStrip_idem]
  · rw [h]; decide
  · rw [h]; decide
  · rw [h]; decide

/-- Claim C7: the Item canonicalizer is idempotent. -/
theorem C7_canonical_idem (s : Str) :
    canonical_item (canonical_item s) = canonical_item s :=
  canonical_item_idem_aux s

/-- Counterexample to claim C6: a non-cattle label with doubled internal
spaces is returned with the doubled spaces intact, not collapsed; the
claimed "internal whitespace collapsed" output differs from the actual
output. -/
theorem C6_counterexample :
    canonical_item (str "Sheep  and  Goats") = str "Sheep  and  Goats" ∧
    collapseWS (pyStrip (str "Sheep  and  Goats")) = str "Sheep and Goats" ∧
    ¬ canonical_item (str "Sheep  and  Goats") =
        collapseWS (pyStrip (str "Sheep  and  Goats")) := by
  refine ⟨by decide, by decide, by decide⟩

/-- Claim C6, amended: for labels whose lowercased whitespace-normalized
form contains neither "cattle" nor "bovine", the canonicalizer returns
the label trimmed, with internal whitespace preserved unchanged. -/
theorem C6_amended (s : Str)
    (h : mentionsCattle (itemLow (pyStrip s)) = false) :
    canonical_item s = pyStrip s :=
  canonical_item_of_not_cattle s h

/-- Witness for `C6_amended` at the concrete label of the
counterexample. -/
theorem C6_witness :
    canonical_item (str "Sheep  and  Goats") = pyStrip (str "Sheep  and  Goats") :=
  C6_amended (str "Sheep  and  Goats") (by decide)

/-! ## C1: the default-configuration scenario. -/

unseal Rat.add Rat.mul Rat.inv Rat.sub Rat.ofScientific in
/-- Claim C1, evaluated on the code: the pipeline on the scenario row
(Area=Austria, Item=Cattle, Element=Stock, Y2020=100) under the default
configuration outputs the dairy LSU row with value 35 as claimed, but
the non-dairy LSU row carries value 65 = 100 × 0.65 × 1.0, not the
claimed 52 = 100 × 0.65 × 0.8: `default_lsu_weight "Cattle, non-dairy"`
is 1 (the `dairy` substring check also matches `non-dairy`), not 0.8. -/
theorem C1_code_eval :
    runPipeline defaultCfg c1Table =
      Except.ok [c1StocksOut, c1DairyOut, c1NonDairyOut] ∧
    c1DairyOut.value = 35 ∧ c1NonDairyOut.value = 65 ∧
    default_lsu_weight (str "Cattle, non-dairy") = 1 ∧
    ¬ (100 : ℚ) * (65 / 100) * (8 / 10) = 65 := by
  refine ⟨by decide, by decide, by decide, by decide, by decide⟩

/-! ## C2: key uniqueness of the written output. -/

unseal Rat.add Rat.mul Rat.inv Rat.sub Rat.ofScientific in
/-- Counterexample to claim C2: on `dupTable` (two identical Stocks
input rows) the pipeline succeeds but its output contains two rows with
the same (Area, Item, Year, Metric) tuple — the Stocks frame is the one
metric frame the script never groups. -/
theorem C2_counterexample :
    ¬ ∀ (cfg : Config) (t : RawTable) (out : List OutRow),
        runPipeline cfg t = Except.ok out → keysUnique out := by
  intro h
  have h2 := h defaultCfg dupTable (outRowsF defaultCfg dupTable) (by decide)
  revert h2
  decide

/-! ## C3: the split guard. -/

/-- Claim C3: whenever some row of the stocks frame already carries an
atomic cattle label at a given (Area, Year), every row the split step
emits at that (Area, Year) was already present in the input frame — no
new dairy/non-dairy rows are manufactured for that key, for any dairy
fraction. -/
theorem C3_split_guard (f : ℚ) (sb : List MRow) (A : Str) (Y : Nat)
    (h : ∃ x ∈ sb, x.area = A ∧ x.year = Y ∧ cattleAtoms.contains x.item = true) :
    ∀ r ∈ splitStep f sb, r.area = A → r.year = Y → r ∈ sb := by
  intro r hr hA hY
  obtain ⟨x, hx, hxA, hxY, hxAtom⟩ := h
  have hKA : (A, Y) ∈ keysAtomicOf sb := by
    unfold keysAtomicOf
    refine List.mem_map.mpr ⟨x, List.mem_filter.mpr ⟨hx, hxAtom⟩, by rw [hxA, hxY]⟩
  have hKA2 : (keysAtomicOf sb).contains (A, Y) = true := List.elem_iff.mpr hKA
  simp only [splitStep] at hr
  split at hr
  · exact hr
  · split at hr
    · rcases List.mem_append.mp hr with h1 | h1
      · exact (List.mem_filter.mp h1).1
      · exact (List.mem_filter.mp (List.mem_filter.mp h1).1).1
    · rcases List.mem_append.mp hr with h1 | h3
      · rcases List.mem_append.mp h1 with h2 | h3
        · rcases List.mem_append.mp h2 with h4 | h4
          · exact (List.mem_filter.mp h4).1
          · exact (List.mem_filter.mp (List.mem_filter.mp h4).1).1
        · exfalso
          obtain ⟨y, hy, hyr⟩ := List.mem_map.mp h3
          have hyQ := (List.mem_filter.mp hy).2
          have hyA : y.area = A := by rw [← hA, ← hyr]; rfl
          have hyY : y.year = Y := by rw [← hY, ← hyr]; rfl
          unfold splitQOf at hyQ
          rw [Bool.not_eq_eq_eq_not, Bool.not_true, hyA, hyY, hKA2] at hyQ
          cases hyQ
      · exfalso
        obtain ⟨y, hy, hyr⟩ := List.mem_map.mp h3
        have hyQ := (List.mem_filter.mp hy).2
        have hyA : y.area = A := by rw [← hA, ← hyr]; rfl
        have hyY : y.year = Y := by rw [← hY, ← hyr]; rfl
        unfold splitQOf at hyQ
        rw [Bool.not_eq_eq_eq_not, Bool.not_true, hyA, hyY, hKA2] at hyQ
        cases hyQ

unseal Rat.add Rat.mul Rat.inv Rat.sub Rat.ofScientific in
/-- Witness for `C3_split_guard`: on `c3Sb` (an atomic dairy row plus a
generic Cattle row at Austria/2020) the generic Cattle row survives the
split step unsplit and was already in the frame. -/
theorem C3_witness :
    (⟨str "Austria", str "Cattle", 2020, 100, str "aggregated",
        false, true, false⟩ : MRow) ∈ c3Sb :=
  C3_split_guard (35 / 100) c3Sb (str "Austria") 2020
    ⟨⟨str "Austria", str "Cattle, dairy", 2020, 10, str "atomic",
        false, false, true⟩, by decide, rfl, rfl, by decide⟩
    _ (by decide) rfl rfl

/-! ## C9: fatal errors produce no output. -/

/-- Claim C9: the pipeline produces output if and only if all three
fatal-error conditions are absent — the required columns are present,
at least one year column exists, and at least one metric frame is
non-empty.  In every other case the run aborts with an error and the
output file is never written (the model writes exactly when the result
is `ok`). -/
theorem C9_no_partial_output (cfg : Config) (t : RawTable) :
    (∃ out, runPipeline cfg t = Except.ok out) ↔
      (hasRequired t = true ∧ (yearCols t).isEmpty = false ∧
       (preparedF cfg t).isEmpty = false) := by
  unfold runPipeline
  by_cases h1 : hasRequired t = true
  · by_cases h2 : (yearCols t).isEmpty = true
    · simp [h1, h2]
    · by_cases h3 : (preparedF cfg t).isEmpty = true
      · simp [h1, h2, h3]
      · simp [h1, h2, h3]
  · simp [Bool.eq_false_iff.mpr h1]

/-! ## C10: nesting of the region flags. -/

theorem eu_subset_eea (a : Str) (ha : EU.contains a = true) :
    EEA_PLUS_UK.contains a = true := by
  have hm : a ∈ EU := List.elem_iff.mp ha
  exact List.elem_iff.mpr
    (by unfold EEA_PLUS_UK; exact List.mem_append_left _ hm)

theorem eea_subset_europe (a : Str) (ha : EEA_PLUS_UK.contains a = true) :
    EUROPE_WIDE.contains a = true := by
  have hm : a ∈ EEA_PLUS_UK := List.elem_iff.mp ha
  have hall : EEA_PLUS_UK.all (fun x => EUROPE_WIDE.contains x) = true := by
    decide
  exact List.all_eq_true.mp hall a hm

/-- The three flags computed by `region_flags` are nested:
EU implies EU+EEA+UK implies Europe-wide. -/
theorem region_flags_nested (a : Str) :
    ((region_flags a).2.1 = true → (region_flags a).2.2 = true) ∧
    ((region_flags a).2.2 = true → (region_flags a).1 = true) := by
  unfold region_flags
  exact ⟨eu_subset_eea _, eea_subset_europe _⟩

/-- Every row of the final output has its region flags assigned by
`withFlags`. -/
theorem outRowsF_flags {cfg : Config} {t : RawTable} {r : OutRow}
    (hr : r ∈ outRowsF cfg t) : ∃ x : OutRow, r = withFlags x := by
  simp only [outRowsF, List.mem_map] at hr
  obtain ⟨x, _, hxr⟩ := hr
  exact ⟨x, hxr.symm⟩

/-- On success the pipeline's output is `outRowsF`. -/
theorem runPipeline_ok {cfg : Config} {t : RawTable} {out : List OutRow}
    (hrun : runPipeline cfg t = Except.ok out) : out = outRowsF cfg t := by
  unfold runPipeline at hrun
  split at hrun
  · cases hrun
  · split at hrun
    · cases hrun
    · split at hrun
      · cases hrun
      · cases hrun; rfl

/-- Claim C10: on every output row the region flags are nested —
`region_EU` implies `region_EUEEAUK`, which implies `region_europe`. -/
theorem C10_region_nested (cfg : Config) (t : RawTable) (out : List OutRow)
    (hrun : runPipeline cfg t = Except.ok out) (r : OutRow) (hr : r ∈ out) :
    (r.regionEU = true → r.regionEUEEAUK = true) ∧
    (r.regionEUEEAUK = true → r.regionEurope = true) := by
  rw [runPipeline_ok hrun] at hr
  obtain ⟨x, hx⟩ := outRowsF_flags hr
  rw [hx]
  exact region_flags_nested x.area

unseal Rat.add Rat.mul Rat.inv Rat.sub Rat.ofScientific in
/-- Witness for `C10_region_nested` on the scenario input's Stocks row. -/
theorem C10_witness :
    (c1StocksOut.regionEU = true → c1StocksOut.regionEUEEAUK = true) ∧
    (c1StocksOut.regionEUEEAUK = true → c1StocksOut.regionEurope = true) :=
  C10_region_nested defaultCfg c1Table (outRowsF defaultCfg c1Table)
    (by decide) c1StocksOut (by decide)

/-! ## C8: the livestock-total restriction. -/

/-- Claim C8: with the restriction enabled, a row whose element
normalizes to CH4 or N2O survives the filter stage iff its element label
contains both "livestock" and "total" (case-insensitive); rows whose
element normalizes to Stocks pass unconditionally; and the element
`Enteric fermentation` normalizes to no recognized element at all, so
such a row is dropped and the CH4 frame of an input holding only that
row is empty — it contributes 0 to CH4_CO2e. -/
theorem C8_only_lt (cfg : Config) (t : RawTable) (r : PreRow)
    (hcfg : cfg.onlyLivestockTotal = true) :
    ((r.norm = str "CH4" ∨ r.norm = str "N2O") →
      (r ∈ elemRows cfg t ↔
        (r ∈ normRows t ∧ is_livestock_total_element r.element = true))) ∧
    (r.norm = str "Stocks" → (r ∈ elemRows cfg t ↔ r ∈ normRows t)) ∧
    normalize_element (str "Enteric fermentation") = none ∧
    ch4Rows defaultCfg entericTable = [] := by
  refine ⟨?_, ?_, by decide, by decide⟩
  · intro hn
    unfold elemRows
    rw [hcfg, if_pos rfl, List.mem_filter]
    unfold onlyLtKeep
    rcases hn with h | h <;> rw [h]
    · rw [show ((str "CH4" == str "CH4" || str "CH4" == str "N2O") : Bool)
            = true from by decide]
      simp
    · rw [show ((str "N2O" == str "CH4" || str "N2O" == str "N2O") : Bool)
            = true from by decide]
      simp
  · intro h
    unfold elemRows
    rw [hcfg, if_pos rfl, List.mem_filter]
    unfold onlyLtKeep
    rw [h]
    rw [show ((str "Stocks" == str "CH4" || str "Stocks" == str "N2O") : Bool)
          = false from by decide]
    simp

/-- Witness for `C8_only_lt`: the gas-table CH4 row, whose element label
is a livestock total, is kept by the filter stage. -/
theorem C8_witness :
    ch4PreRow ∈ elemRows defaultCfg gasTable ↔
      (ch4PreRow ∈ normRows gasTable ∧
       is_livestock_total_element ch4PreRow.element = true) :=
  (C8_only_lt defaultCfg gasTable ch4PreRow rfl).1 (Or.inl rfl)

/-! ## Summation lemmas for the grouping step. -/

theorem mkey_buildRow (k : MKey) (v : ℚ) : mkey (buildRow k v) = k := rfl

theorem groupSum_map_mkey (R : List MRow) :
    (groupSum R).map mkey = (R.map mkey).dedup := by
  unfold groupSum
  rw [List.map_map]
  simp only [Function.comp_def, mkey_buildRow, List.map_id']

theorem groupSum_keys_nodup (R : List MRow) :
    ((groupSum R).map mkey).Nodup := by
  rw [groupSum_map_mkey]
  exact List.nodup_dedup _

theorem mem_groupSum {R : List MRow} {r : MRow} (hr : r ∈ groupSum R) :
    ∃ x ∈ R, mkey r = mkey x := by
  unfold groupSum at hr
  obtain ⟨k, hk, hkr⟩ := List.mem_map.mp hr
  obtain ⟨x, hx, hxk⟩ := List.mem_map.mp (List.mem_dedup.mp hk)
  exact ⟨x, hx, by rw [← hkr, mkey_buildRow, hxk]⟩

theorem sum_map_add_q {α : Type} (l : List α) (f g : α → ℚ) :
    (l.map (fun x => f x + g x)).sum = (l.map f).sum + (l.map g).sum := by
  induction l with
  | nil => simp
  | cons a l ih => simp only [List.map_cons, List.sum_cons, ih]; ring

theorem sum_ite_mem (q : MKey → Bool) (a : MKey) (v : ℚ) (K : List MKey)
    (hK : K.Nodup) :
    ((K.filter q).map (fun k => if a = k then v else 0)).sum =
      if a ∈ K ∧ q a = true then v else 0 := by
  induction K with
  | nil => simp
  | cons b K ih =>
    rw [List.nodup_cons] at hK
    by_cases hqb : q b = true
    · rw [List.filter_cons_of_pos hqb, List.map_cons, List.sum_cons, ih hK.2]
      by_cases hab : a = b
      · subst hab
        rw [if_pos rfl,
            if_neg (fun hc : a ∈ K ∧ q a = true => hK.1 hc.1),
            if_pos ⟨List.mem_cons_self a K, hqb⟩, add_zero]
      · rw [if_neg hab, zero_add]
        by_cases hm : a ∈ K ∧ q a = true
        · rw [if_pos hm, if_pos ⟨List.mem_cons_of_mem b hm.1, hm.2⟩]
        · rw [if_neg hm,
              if_neg (fun hc => hm ⟨(List.mem_cons.mp hc.1).resolve_left hab, hc.2⟩)]
    · rw [List.filter_cons_of_neg hqb, ih hK.2]
      by_cases hab : a = b
      · subst hab
        rw [if_neg (fun hc : a ∈ K ∧ q a = true => hK.1 hc.1),
            if_neg (fun hc => hqb hc.2)]
      · by_cases hm : a ∈ K ∧ q a = true
        · rw [if_pos hm, if_pos ⟨List.mem_cons_of_mem b hm.1, hm.2⟩]
        · rw [if_neg hm,
              if_neg (fun hc => hm ⟨(List.mem_cons.mp hc.1).resolve_left hab, hc.2⟩)]

theorem fiberSum_cons (r : MRow) (R : List MRow) (k : MKey) :
    fiberSum (r :: R) k = (if mkey r = k then r.value else 0) + fiberSum R k := by
  unfold fiberSum
  by_cases h : mkey r = k
  · rw [List.filter_cons_of_pos (by simp [h]), List.map_cons, List.sum_cons,
        if_pos h]
  · rw [List.filter_cons_of_neg (by simp [h]), if_neg h, zero_add]

theorem sum_fiber_filter (q : MKey → Bool) (K : List MKey) (hK : K.Nodup)
    (R : List MRow) (hR : ∀ r ∈ R, mkey r ∈ K) :
    ((K.filter q).map (fun k => fiberSum R k)).sum = sumOverK q R := by
  induction R with
  | nil =>
    rw [show sumOverK q [] = 0 from rfl]
    refine List.sum_eq_zero ?_
    intro x hx
    obtain ⟨k, _, hkx⟩ := List.mem_map.mp hx
    rw [← hkx]
    rfl
  | cons r R ih =>
    have hR2 : ∀ x ∈ R, mkey x ∈ K := fun x hx => hR x (List.mem_cons_of_mem _ hx)
    simp only [fiberSum_cons]
    rw [sum_map_add_q, ih hR2, sum_ite_mem q (mkey r) r.value K hK]
    have hmem : mkey r ∈ K := hR r (List.mem_cons_self r R)
    unfold sumOverK
    by_cases hq : q (mkey r) = true
    · simp only [List.filter_cons]
      rw [if_pos ⟨hmem, hq⟩, if_pos hq, List.map_cons, List.sum_cons]
    · simp only [List.filter_cons]
      rw [if_neg (fun hc => hq hc.2), zero_add, if_neg hq]

theorem sumOverK_groupSum (q : MKey → Bool) (R : List MRow) :
    sumOverK q (groupSum R) = sumOverK q R := by
  unfold sumOverK groupSum
  rw [List.filter_map, List.map_map]
  have hpred : List.filter
      ((fun r => q (mkey r)) ∘ (fun k => buildRow k (fiberSum R k)))
      (R.map mkey).dedup = List.filter q (R.map mkey).dedup :=
    List.filter_congr (fun a _ => rfl)
  rw [hpred]
  have hmapv : List.map
      ((fun r => r.value) ∘ (fun k => buildRow k (fiberSum R k)))
      (List.filter q (R.map mkey).dedup) =
      List.map (fun k => fiberSum R k) (List.filter q (R.map mkey).dedup) :=
    List.map_congr_left (fun a _ => rfl)
  rw [hmapv]
  exact sum_fiber_filter q _ (List.nodup_dedup _) R
    (fun r hr => List.mem_dedup.mpr (List.mem_map_of_mem mkey hr))

theorem sumAtKey_eq_sumOverK (rows : List MRow) (A : Str) (Y : Nat)
    (p : Str → Bool) :
    sumAtKey rows A Y p =
      sumOverK (fun k => k.area == A && k.year == Y && p k.item) rows := rfl

theorem sum_filter_eq_zero {p : MRow → Bool} {l : List MRow}
    (h : ∀ r ∈ l, p r = false) :
    ((l.filter p).map (fun r => r.value)).sum = 0 := by
  have hnil : l.filter p = [] :=
    List.filter_eq_nil_iff.mpr (fun a ha hc => by rw [h a ha] at hc; cases hc)
  rw [hnil]
  rfl

theorem filter_map_sum (g : MRow → MRow) (p : MRow → Bool) (rows : List MRow) :
    (((rows.map g).filter p).map (fun r => r.value)).sum =
    ((rows.filter (fun r => p (g r))).map (fun r => (g r).value)).sum := by
  rw [List.filter_map, List.map_map]
  rfl

/-- The value sums the split step produces at an (Area, Year) key with no
pre-existing atomic cattle rows: the dairy rows it emits at that key sum
to `f` times the generic-cattle stocks at the key, and the non-dairy
rows to `1 - f` times it. -/
theorem splitStep_sums (f : ℚ) (sb : List MRow) (A : Str) (Y : Nat)
    (hatom : ∀ x ∈ sb, x.area = A → x.year = Y →
      cattleAtoms.contains x.item = false) :
    (((splitStep f sb).filter (fun r => r.area == A && r.year == Y &&
        (r.item == str "Cattle, dairy"))).map (fun r => r.value)).sum =
      f * ((sb.filter (fun r => r.area == A && r.year == Y &&
        genericQ r)).map (fun r => r.value)).sum ∧
    (((splitStep f sb).filter (fun r => r.area == A && r.year == Y &&
        (r.item == str "Cattle, non-dairy"))).map (fun r => r.value)).sum =
      (1 - f) * ((sb.filter (fun r => r.area == A && r.year == Y &&
        genericQ r)).map (fun r => r.value)).sum := by
  have hnolbl : ∀ lbl, lbl ∈ cattleAtoms → ∀ r ∈ sb,
      (r.area == A && r.year == Y && (r.item == lbl)) = false := by
    intro lbl hlbl r hr
    rw [Bool.eq_false_iff]
    intro htrue
    simp only [Bool.and_eq_true, beq_iff_eq] at htrue
    obtain ⟨⟨hA, hY⟩, hi⟩ := htrue
    have hc := hatom r hr hA hY
    rw [hi] at hc
    have h2 : cattleAtoms.contains lbl = true := List.elem_iff.mpr hlbl
    rw [hc] at h2
    cases h2
  have hKAnot : (keysAtomicOf sb).contains (A, Y) = false := by
    rw [Bool.eq_false_iff]
    intro hc
    obtain ⟨x, hx, hxeq⟩ := List.mem_map.mp (List.elem_iff.mp hc)
    have hxf := List.mem_filter.mp hx
    have hc2 := hatom x hxf.1 (congrArg Prod.fst hxeq) (congrArg Prod.snd hxeq)
    rw [hc2] at hxf
    cases hxf.2
  -- the four kinds of chunk sums
  have hsub0 : ∀ (lbl : Str), lbl ∈ cattleAtoms → ∀ (p : MRow → Bool),
      (((sb.filter p).filter (fun r => r.area == A && r.year == Y &&
        (r.item == lbl))).map (fun r => r.value)).sum = 0 :=
    fun lbl hlbl p => sum_filter_eq_zero
      (fun r hr => hnolbl lbl hlbl r (List.mem_filter.mp hr).1)
  have hsubsub0 : ∀ (lbl : Str), lbl ∈ cattleAtoms → ∀ (p q : MRow → Bool),
      ((((sb.filter p).filter q).filter (fun r => r.area == A && r.year == Y &&
        (r.item == lbl))).map (fun r => r.value)).sum = 0 :=
    fun lbl hlbl p q => sum_filter_eq_zero
      (fun r hr => hnolbl lbl hlbl r
        (List.mem_filter.mp (List.mem_filter.mp hr).1).1)
  have hcross : ∀ (L : List MRow) (g : MRow → MRow) (lbl : Str),
      (∀ y, ((g y).item == lbl) = false) →
      (((L.map g).filter (fun r => r.area == A && r.year == Y &&
        (r.item == lbl))).map (fun r => r.value)).sum = 0 := by
    intro L g lbl hg
    refine sum_filter_eq_zero ?_
    intro r hrm
    obtain ⟨y, hy, hyr⟩ := List.mem_map.mp hrm
    rw [← hyr, hg y, Bool.and_false]
  have htoSplit : ((sb.filter genericQ).filter (splitQOf sb)).filter
      (fun r => r.area == A && r.year == Y) =
      sb.filter (fun r => r.area == A && r.year == Y && genericQ r) := by
    rw [List.filter_filter, List.filter_filter]
    refine List.filter_congr (fun r _ => ?_)
    by_cases hA : r.area = A
    · by_cases hY : r.year = Y
      · have hsq : splitQOf sb r = true := by
          unfold splitQOf
          rw [hA, hY, hKAnot]
          rfl
        simp [hA, hY, hsq]
      · have hb : (r.year == Y) = false := by simp [hY]
        simp [hb]
    · have hb : (r.area == A) = false := by simp [hA]
      simp [hb]
  have hdairy_chunk : ∀ (L : List MRow),
      (((L.map (dairyOf f)).filter (fun r => r.area == A && r.year == Y &&
        (r.item == str "Cattle, dairy"))).map (fun r => r.value)).sum =
      ((L.filter (fun r => r.area == A && r.year == Y)).map
        (fun r => r.value)).sum * f := by
    intro L
    rw [filter_map_sum]
    simp only [dairyOf, beq_self_eq_true, Bool.and_true]
    rw [List.sum_map_mul_right]
  have hother_chunk : ∀ (L : List MRow),
      (((L.map (otherOf f)).filter (fun r => r.area == A && r.year == Y &&
        (r.item == str "Cattle, non-dairy"))).map (fun r => r.value)).sum =
      ((L.filter (fun r => r.area == A && r.year == Y)).map
        (fun r => r.value)).sum * (1 - f) := by
    intro L
    rw [filter_map_sum]
    simp only [otherOf, beq_self_eq_true, Bool.and_true]
    rw [List.sum_map_mul_right]
  simp only [splitStep]
  split
  · -- no generic Cattle rows at all: the frame passes through unchanged
    next h1 =>
    have hSS0 : ((sb.filter (fun r => r.area == A && r.year == Y &&
        genericQ r)).map (fun r => r.value)).sum = 0 := by
      refine sum_filter_eq_zero ?_
      intro r hr
      rw [Bool.eq_false_iff]
      intro htrue
      rw [Bool.and_eq_true] at htrue
      have hmem : r ∈ sb.filter genericQ :=
        List.mem_filter.mpr ⟨hr, htrue.2⟩
      rw [List.isEmpty_iff.mp h1] at hmem
      cases hmem
    constructor
    · rw [sum_filter_eq_zero (fun r hr => hnolbl _ (by decide) r hr), hSS0,
          mul_zero]
    · rw [sum_filter_eq_zero (fun r hr => hnolbl _ (by decide) r hr), hSS0,
          mul_zero]
  · next h1 =>
    split
    · -- generic rows exist but all their keys already have atomic rows
      next h2 =>
      have hSS0 : ((sb.filter (fun r => r.area == A && r.year == Y &&
          genericQ r)).map (fun r => r.value)).sum = 0 := by
        refine sum_filter_eq_zero ?_
        intro r hr
        rw [Bool.eq_false_iff]
        intro htrue
        rw [Bool.and_eq_true, Bool.and_eq_true] at htrue
        obtain ⟨⟨hA, hY⟩, hg⟩ := htrue
        rw [beq_iff_eq] at hA hY
        have hmem : r ∈ (sb.filter genericQ).filter (splitQOf sb) := by
          refine List.mem_filter.mpr ⟨List.mem_filter.mpr ⟨hr, hg⟩, ?_⟩
          unfold splitQOf
          rw [hA, hY, hKAnot]
          rfl
        rw [List.isEmpty_iff.mp h2] at hmem
        cases hmem
      constructor
      · rw [List.filter_append, List.map_append, List.sum_append,
            hsub0 _ (by decide) _, hsubsub0 _ (by decide) _ _, hSS0,
            mul_zero, add_zero]
      · rw [List.filter_append, List.map_append, List.sum_append,
            hsub0 _ (by decide) _, hsubsub0 _ (by decide) _ _, hSS0,
            mul_zero, add_zero]
    · -- the real split: some generic rows are split at their keys
      next h2 =>
      constructor
      · rw [List.filter_append, List.map_append, List.sum_append,
            List.filter_append, List.map_append, List.sum_append,
            List.filter_append, List.map_append, List.sum_append,
            hsub0 _ (by decide) _, hsubsub0 _ (by decide) _ _,
            hcross _ (otherOf f) (str "Cattle, dairy") (fun y => by
              rw [show (otherOf f y).item = str "Cattle, non-dairy" from rfl]
              decide),
            hdairy_chunk, htoSplit,
            zero_add, zero_add, add_zero]
        exact mul_comm _ _
      · rw [List.filter_append, List.map_append, List.sum_append,
            List.filter_append, List.map_append, List.sum_append,
            List.filter_append, List.map_append, List.sum_append,
            hsub0 _ (by decide) _, hsubsub0 _ (by decide) _ _,
            hcross _ (dairyOf f) (str "Cattle, non-dairy") (fun y => by
              rw [show (dairyOf f y).item = str "Cattle, dairy" from rfl]
              decide),
            hother_chunk, htoSplit,
            zero_add, zero_add, zero_add]
        exact mul_comm _ _

theorem sumOverK_weightmap (q : MKey → Bool) (sb : List MRow) :
    sumOverK q (sb.map (fun r =>
      { r with value := r.value * default_lsu_weight r.item })) =
    ((sb.filter (fun r => q (mkey r))).map
      (fun r => r.value * default_lsu_weight r.item)).sum := by
  unfold sumOverK
  rw [List.filter_map, List.map_map]
  rfl

/-- Claim C4, amended to what the code computes.  For any (Area, Year)
key with splitting enabled and no pre-existing atomic cattle row, the
LSU output satisfies: LSU(Cattle, dairy) = f × S and
LSU(Cattle, non-dairy) = (1 − f) × S, where f is the clamped dairy
fraction and S the total generic-cattle stocks at the key.  Hence
LSU(dairy) + LSU(non-dairy) = S — not S × 0.8, because
`default_lsu_weight` gives weight 1 to both derived labels — and the
dairy LSU equals f times the dairy + non-dairy LSU total. -/
theorem C4_amended (cfg : Config) (t : RawTable) (A : Str) (Y : Nat)
    (hsplit : cfg.splitCattle = true)
    (hatom : ∀ x ∈ lsuBase cfg t, x.area = A → x.year = Y →
      cattleAtoms.contains x.item = false) :
    sumAtKey (lsuRows cfg t) A Y (fun i => i == str "Cattle, dairy") =
      dairyFrac cfg *
        sumAtKey (lsuBase cfg t) A Y (fun i => pyLower i == str "cattle") ∧
    sumAtKey (lsuRows cfg t) A Y (fun i => i == str "Cattle, non-dairy") =
      (1 - dairyFrac cfg) *
        sumAtKey (lsuBase cfg t) A Y (fun i => pyLower i == str "cattle") ∧
    sumAtKey (lsuRows cfg t) A Y (fun i => i == str "Cattle, dairy") +
      sumAtKey (lsuRows cfg t) A Y (fun i => i == str "Cattle, non-dairy") =
      sumAtKey (lsuBase cfg t) A Y (fun i => pyLower i == str "cattle") ∧
    sumAtKey (lsuRows cfg t) A Y (fun i => i == str "Cattle, dairy") =
      dairyFrac cfg *
        (sumAtKey (lsuRows cfg t) A Y (fun i => i == str "Cattle, dairy") +
         sumAtKey (lsuRows cfg t) A Y (fun i => i == str "Cattle, non-dairy")) := by
  have hif : (if cfg.splitCattle then splitStep (dairyFrac cfg) (lsuBase cfg t)
      else lsuBase cfg t) = splitStep (dairyFrac cfg) (lsuBase cfg t) := by
    rw [hsplit]
    rfl
  have hmain : ∀ (lbl : Str), default_lsu_weight lbl = 1 →
      sumAtKey (lsuRows cfg t) A Y (fun i => i == lbl) =
      (((splitStep (dairyFrac cfg) (lsuBase cfg t)).filter
        (fun r => r.area == A && r.year == Y && (r.item == lbl))).map
        (fun r => r.value)).sum := by
    intro lbl hw
    rw [sumAtKey_eq_sumOverK]
    simp only [lsuRows]
    rw [hif, sumOverK_groupSum, sumOverK_weightmap]
    show (((splitStep (dairyFrac cfg) (lsuBase cfg t)).filter
        (fun r => r.area == A && r.year == Y && (r.item == lbl))).map
        (fun r => r.value * default_lsu_weight r.item)).sum = _
    refine congrArg List.sum (List.map_congr_left (fun r hr => ?_))
    have h2 := (List.mem_filter.mp hr).2
    simp only [Bool.and_eq_true, beq_iff_eq] at h2
    rw [h2.2, hw, mul_one]
  have hs := splitStep_sums (dairyFrac cfg) (lsuBase cfg t) A Y hatom
  have hSS : (((lsuBase cfg t).filter (fun r => r.area == A && r.year == Y &&
      genericQ r)).map (fun r => r.value)).sum =
      sumAtKey (lsuBase cfg t) A Y (fun i => pyLower i == str "cattle") := rfl
  have hD : sumAtKey (lsuRows cfg t) A Y (fun i => i == str "Cattle, dairy") =
      dairyFrac cfg *
        sumAtKey (lsuBase cfg t) A Y (fun i => pyLower i == str "cattle") := by
    rw [hmain (str "Cattle, dairy") (by decide), hs.1, hSS]
  have hND : sumAtKey (lsuRows cfg t) A Y
      (fun i => i == str "Cattle, non-dairy") =
      (1 - dairyFrac cfg) *
        sumAtKey (lsuBase cfg t) A Y (fun i => pyLower i == str "cattle") := by
    rw [hmain (str "Cattle, non-dairy") (by decide), hs.2, hSS]
  refine ⟨hD, hND, ?_, ?_⟩
  · rw [hD, hND]; ring
  · rw [hD, hND]; ring

unseal Rat.add Rat.mul Rat.inv Rat.sub Rat.ofScientific in
/-- Counterexample to claim C4 as stated: on the default-configuration
scenario input, LSU(Cattle, dairy) = 35 and LSU(Cattle, non-dairy) = 65,
the generic-cattle stocks before the split are 100 and the generic
cattle weight is 0.8, so LSU(dairy) + LSU(non-dairy) = 100 is neither
the generic row's LSU 100 × 0.8 = 80 nor that LSU times the weight
again (64): the claimed mass-conservation equation fails. -/
theorem C4_counterexample :
    sumAtKey (lsuRows defaultCfg c1Table) (str "Austria") 2020
        (fun i => i == str "Cattle, dairy") = 35 ∧
    sumAtKey (lsuRows defaultCfg c1Table) (str "Austria") 2020
        (fun i => i == str "Cattle, non-dairy") = 65 ∧
    sumAtKey (lsuBase defaultCfg c1Table) (str "Austria") 2020
        (fun i => pyLower i == str "cattle") = 100 ∧
    default_lsu_weight (str "Cattle") = 8 / 10 ∧
    ¬ (35 + 65 : ℚ) = 100 * (8 / 10) ∧
    ¬ (35 + 65 : ℚ) = 100 * (8 / 10) * (8 / 10) := by
  refine ⟨by decide, by decide, by decide, by decide, by decide, by decide⟩

unseal Rat.add Rat.mul Rat.inv Rat.sub Rat.ofScientific in
/-- Witness for `C4_amended` on the scenario input at Austria/2020. -/
theorem C4_witness :
    sumAtKey (lsuRows defaultCfg c1Table) (str "Austria") 2020
        (fun i => i == str "Cattle, dairy") =
      dairyFrac defaultCfg *
        sumAtKey (lsuBase defaultCfg c1Table) (str "Austria") 2020
          (fun i => pyLower i == str "cattle") ∧
    sumAtKey (lsuRows defaultCfg c1Table) (str "Austria") 2020
        (fun i => i == str "Cattle, non-dairy") =
      (1 - dairyFrac defaultCfg) *
        sumAtKey (lsuBase defaultCfg c1Table) (str "Austria") 2020
          (fun i => pyLower i == str "cattle") ∧
    sumAtKey (lsuRows defaultCfg c1Table) (str "Austria") 2020
        (fun i => i == str "Cattle, dairy") +
      sumAtKey (lsuRows defaultCfg c1Table) (str "Austria") 2020
        (fun i => i == str "Cattle, non-dairy") =
      sumAtKey (lsuBase defaultCfg c1Table) (str "Austria") 2020
        (fun i => pyLower i == str "cattle") ∧
    sumAtKey (lsuRows defaultCfg c1Table) (str "Austria") 2020
        (fun i => i == str "Cattle, dairy") =
      dairyFrac defaultCfg *
        (sumAtKey (lsuRows defaultCfg c1Table) (str "Austria") 2020
            (fun i => i == str "Cattle, dairy") +
         sumAtKey (lsuRows defaultCfg c1Table) (str "Austria") 2020
            (fun i => i == str "Cattle, non-dairy")) :=
  C4_amended defaultCfg c1Table (str "Austria") 2020 rfl (by decide)

/-! ## Lookup lemmas for the outer merge. -/

theorem lookupV_map_buildRow (K : List MKey) (g : MKey → ℚ) (a : MKey) :
    lookupV (K.map (fun k => buildRow k (g k))) a =
      if a ∈ K then some (g a) else none := by
  induction K with
  | nil => simp [lookupV]
  | cons b K ih =>
    unfold lookupV at ih ⊢
    rw [List.map_cons]
    by_cases hab : b = a
    · rw [List.find?_cons_of_pos _ (by simp [mkey_buildRow, hab]),
          if_pos (by rw [hab]; exact List.mem_cons_self a K)]
      simp [buildRow, hab]
    · rw [List.find?_cons_of_neg _ (by simp [mkey_buildRow, hab]), ih]
      by_cases hm : a ∈ K
      · rw [if_pos hm, if_pos (List.mem_cons_of_mem b hm)]
      · rw [if_neg hm,
            if_neg (fun hc => hm ((List.mem_cons.mp hc).resolve_left
              (fun he => hab he.symm)))]

theorem lookupV_isSome (rows : List MRow) (k : MKey) :
    (lookupV rows k).isSome = true ↔ k ∈ rows.map mkey := by
  unfold lookupV
  constructor
  · intro h
    cases hfind : List.find? (fun r => mkey r == k) rows with
    | none => rw [hfind] at h; cases h
    | some x =>
      have hp := List.find?_some hfind
      exact List.mem_map.mpr ⟨x, List.mem_of_find?_eq_some hfind,
        beq_iff_eq.mp hp⟩
  · intro h
    obtain ⟨x, hx, hxk⟩ := List.mem_map.mp h
    have hs : (List.find? (fun r => mkey r == k) rows).isSome = true :=
      List.find?_isSome.mpr ⟨x, hx, beq_iff_eq.mpr hxk⟩
    cases hfind : List.find? (fun r => mkey r == k) rows with
    | none => rw [hfind] at hs; cases hs
    | some x2 => rfl

theorem mem_keys_totalRows (c n : List MRow) (k : MKey) :
    k ∈ (c.map mkey) ++ (n.map mkey).filter (fun j => !(c.map mkey).contains j)
      ↔ k ∈ c.map mkey ∨ k ∈ n.map mkey := by
  rw [List.mem_append]
  constructor
  · rintro (h | h)
    · exact Or.inl h
    · exact Or.inr (List.mem_filter.mp h).1
  · rintro (h | h)
    · exact Or.inl h
    · by_cases hc : k ∈ c.map mkey
      · exact Or.inl hc
      · refine Or.inr (List.mem_filter.mpr ⟨h, ?_⟩)
        rw [Bool.not_eq_eq_eq_not, Bool.not_true, Bool.eq_false_iff]
        intro hcon
        exact hc (List.elem_iff.mp hcon)

theorem lookupV_totalRows (c n : List MRow) (k : MKey) :
    lookupV (totalRows c n) k =
      if k ∈ c.map mkey ∨ k ∈ n.map mkey then
        some ((lookupV c k).getD 0 + (lookupV n k).getD 0)
      else none := by
  unfold totalRows
  rw [lookupV_map_buildRow]
  by_cases h : k ∈ c.map mkey ∨ k ∈ n.map mkey
  · rw [if_pos ((mem_keys_totalRows c n k).mpr h), if_pos h]
  · rw [if_neg (fun hc => h ((mem_keys_totalRows c n k).mp hc)), if_neg h]

/-! ## The item-label invariant carried by every metric frame. -/

theorem excludeOK_pyStrip (x : Str) : excludeOK (pyStrip x) = excludeOK x := by
  unfold excludeOK
  rw [pyStrip_idem]

theorem excludeOK_canonical {x : Str} (hx : excludeOK x = true) :
    excludeOK (canonical_item x) = true := by
  rcases canonical_item_cases x with h | h | h | h <;> rw [h]
  · rw [excludeOK_pyStrip]; exact hx
  · decide
  · decide
  · decide

/-- All rows of the canonicalized pre-melt table carry fixed-point,
non-excluded item labels. -/
theorem canonRows_item {t : RawTable} {r : RawRow} (hr : r ∈ canonRows t) :
    canonical_item r.item = r.item ∧ excludeOK r.item = true := by
  unfold canonRows at hr
  obtain ⟨y, hy, hyr⟩ := List.mem_map.mp hr
  obtain ⟨hy1, hy2⟩ := List.mem_filter.mp hy
  have hitem : r.item = canonical_item y.item := by rw [← hyr]
  rw [hitem]
  exact ⟨canonical_item_idem_aux y.item, excludeOK_canonical hy2⟩

theorem normRows_item {t : RawTable} {r : PreRow} (hr : r ∈ normRows t) :
    canonical_item r.item = r.item ∧ excludeOK r.item = true := by
  unfold normRows at hr
  obtain ⟨y, hy, hyr⟩ := List.mem_filterMap.mp hr
  obtain ⟨n, hn1, hn2⟩ := Option.map_eq_some'.mp hyr
  have : r.item = y.item := by rw [← hn2]
  rw [this]
  exact canonRows_item hy

theorem elemRows_sub {cfg : Config} {t : RawTable} {r : PreRow}
    (hr : r ∈ elemRows cfg t) : r ∈ normRows t := by
  unfold elemRows at hr
  by_cases h : cfg.onlyLivestockTotal = true
  · rw [h, if_pos rfl] at hr
    exact (List.mem_filter.mp hr).1
  · rw [Bool.eq_false_iff.mpr h] at hr
    simpa using hr

set_option maxHeartbeats 1000000 in
/-- Every melted long row satisfies the key invariant. -/
theorem longRows_good {cfg : Config} {t : RawTable} {l : LRow}
    (hl : l ∈ longRows cfg t) : GoodK (mkey (toMRow l)) := by
  unfold longRows at hl
  obtain ⟨yc, _, hyc⟩ := List.mem_flatMap.mp hl
  obtain ⟨r, hr, hrl⟩ := List.mem_map.mp hyc
  have hitem := normRows_item (elemRows_sub hr)
  rw [← hrl]
  exact ⟨hitem.1, hitem.2, rfl, rfl, rfl, rfl⟩

theorem stocksRows_good {cfg : Config} {t : RawTable} {m : MRow}
    (hm : m ∈ stocksRows cfg t) : GoodK (mkey m) := by
  unfold stocksRows at hm
  obtain ⟨l, hl, hlm⟩ := List.mem_map.mp hm
  rw [← hlm]
  exact longRows_good (List.mem_filter.mp hl).1

theorem ch4Rows_good {cfg : Config} {t : RawTable} {m : MRow}
    (hm : m ∈ ch4Rows cfg t) : GoodK (mkey m) := by
  unfold ch4Rows at hm
  obtain ⟨l, hl, hlm⟩ := List.mem_map.mp hm
  rw [← hlm]
  exact longRows_good (List.mem_filter.mp hl).1

theorem n2oRows_good {cfg : Config} {t : RawTable} {m : MRow}
    (hm : m ∈ n2oRows cfg t) : GoodK (mkey m) := by
  unfold n2oRows at hm
  obtain ⟨l, hl, hlm⟩ := List.mem_map.mp hm
  rw [← hlm]
  exact longRows_good (List.mem_filter.mp hl).1

theorem goodK_label (a : Str) (y : Nat) (lbl kind : Str) (b1 b2 b3 : Bool)
    (h1 : canonical_item lbl = lbl) (h2 : excludeOK lbl = true)
    (h3 : kind = item_kind lbl) (h4 : b1 = (item_kind lbl == str "All"))
    (h5 : b2 = (item_kind lbl == str "aggregated"))
    (h6 : b3 = (item_kind lbl == str "atomic")) :
    GoodK ⟨a, lbl, y, kind, b1, b2, b3⟩ := ⟨h1, h2, h3, h4, h5, h6⟩

theorem groupSum_good {R : List MRow} (hR : ∀ x ∈ R, GoodK (mkey x))
    {m : MRow} (hm : m ∈ groupSum R) : GoodK (mkey m) := by
  obtain ⟨x, hx, hxm⟩ := mem_groupSum hm
  rw [hxm]
  exact hR x hx

theorem mem_totalRows {c n : List MRow} {m : MRow} (hm : m ∈ totalRows c n) :
    ∃ x, (x ∈ c ∨ x ∈ n) ∧ mkey m = mkey x := by
  unfold totalRows at hm
  obtain ⟨k, hk, hkm⟩ := List.mem_map.mp hm
  rcases (mem_keys_totalRows c n k).mp hk with h | h
  · obtain ⟨x, hx, hxk⟩ := List.mem_map.mp h
    exact ⟨x, Or.inl hx, by rw [← hkm, mkey_buildRow, hxk]⟩
  · obtain ⟨x, hx, hxk⟩ := List.mem_map.mp h
    exact ⟨x, Or.inr hx, by rw [← hkm, mkey_buildRow, hxk]⟩

theorem totalRows_good {c n : List MRow} (hc : ∀ x ∈ c, GoodK (mkey x))
    (hn : ∀ x ∈ n, GoodK (mkey x)) {m : MRow} (hm : m ∈ totalRows c n) :
    GoodK (mkey m) := by
  obtain ⟨x, hx, hxm⟩ := mem_totalRows hm
  rw [hxm]
  rcases hx with h | h
  · exact hc x h
  · exact hn x h

theorem lsuBase_good {cfg : Config} {t : RawTable} {m : MRow}
    (hm : m ∈ lsuBase cfg t) : GoodK (mkey m) := by
  unfold lsuBase at hm
  obtain ⟨x, hx, hxm⟩ := List.mem_map.mp hm
  have hg := stocksRows_good hx
  have hfix : canonical_item x.item = x.item := hg.1
  have : m = x := by
    rw [← hxm, hfix]
  rw [this]
  exact hg

theorem splitStep_good {f : ℚ} {sb : List MRow}
    (hsb : ∀ x ∈ sb, GoodK (mkey x)) {m : MRow} (hm : m ∈ splitStep f sb) :
    GoodK (mkey m) := by
  simp only [splitStep] at hm
  split at hm
  · exact hsb m hm
  · split at hm
    · rcases List.mem_append.mp hm with h1 | h1
      · exact hsb m (List.mem_filter.mp h1).1
      · exact hsb m (List.mem_filter.mp (List.mem_filter.mp h1).1).1
    · rcases List.mem_append.mp hm with h1 | h3
      · rcases List.mem_append.mp h1 with h2 | h3
        · rcases List.mem_append.mp h2 with h4 | h4
          · exact hsb m (List.mem_filter.mp h4).1
          · exact hsb m (List.mem_filter.mp (List.mem_filter.mp h4).1).1
        · obtain ⟨y, _, hym⟩ := List.mem_map.mp h3
          rw [← hym]
          exact goodK_label y.area y.year (str "Cattle, dairy") (str "atomic")
            false false true (by decide) (by decide) (by decide) (by decide)
            (by decide) (by decide)
      · obtain ⟨y, _, hym⟩ := List.mem_map.mp h3
        rw [← hym]
        exact goodK_label y.area y.year (str "Cattle, non-dairy") (str "atomic")
          false false true (by decide) (by decide) (by decide) (by decide)
          (by decide) (by decide)

theorem lsuRows_good {cfg : Config} {t : RawTable} {m : MRow}
    (hm : m ∈ lsuRows cfg t) : GoodK (mkey m) := by
  simp only [lsuRows] at hm
  refine groupSum_good ?_ hm
  intro x hx
  obtain ⟨y, hy, hyx⟩ := List.mem_map.mp hx
  have : mkey x = mkey y := by rw [← hyx]; rfl
  rw [this]
  by_cases hsc : cfg.splitCattle = true
  · rw [hsc, if_pos rfl] at hy
    exact splitStep_good (fun z hz => lsuBase_good hz) hy
  · rw [Bool.eq_false_iff.mpr hsc] at hy
    simp only [Bool.false_eq_true, if_false] at hy
    exact lsuBase_good hy

/-! ## Membership in the final output. -/

theorem mem_ite_nil_ne {α : Type} {c : Prop} [Decidable c] {l : List α}
    {p : α} (hp : p ∈ (if c then ([] : List α) else l)) : p ∈ l ∧ ¬ c := by
  by_cases h : c
  · rw [if_pos h] at hp; cases hp
  · rw [if_neg h] at hp; exact ⟨hp, h⟩

/-- A row is in the final output iff it is the flag-augmented,
re-canonicalized image of a metric-frame row that survives the exclusion
filter. -/
theorem mem_outRowsF {cfg : Config} {t : RawTable} {r : OutRow} :
    r ∈ outRowsF cfg t ↔ ∃ p ∈ preparedF cfg t, ∃ m ∈ p.2,
      excludeOK (canonical_item m.item) = true ∧
      r = withFlags { toOutRow p.1 m with item := canonical_item m.item } := by
  simp only [outRowsF]
  constructor
  · intro hr
    obtain ⟨x, hx, hxr⟩ := List.mem_map.mp hr
    obtain ⟨hx1, hx2⟩ := List.mem_filter.mp hx
    obtain ⟨y, hy, hyx⟩ := List.mem_map.mp hx1
    have hy2 : y ∈ (preparedF cfg t).flatMap (fun p => p.2.map (toOutRow p.1)) :=
      (List.perm_insertionSort _ _).mem_iff.mp hy
    obtain ⟨p, hp, hyp⟩ := List.mem_flatMap.mp hy2
    obtain ⟨m, hm, hmy⟩ := List.mem_map.mp hyp
    subst hmy
    subst hyx
    subst hxr
    exact ⟨p, hp, m, hm, hx2, rfl⟩
  · rintro ⟨p, hp, m, hm, hex, hre⟩
    subst hre
    refine List.mem_map.mpr
      ⟨{ toOutRow p.1 m with item := canonical_item m.item }, ?_, rfl⟩
    refine List.mem_filter.mpr ⟨?_, hex⟩
    refine List.mem_map.mpr ⟨toOutRow p.1 m, ?_, rfl⟩
    exact (List.perm_insertionSort _ _).mem_iff.mpr
      (List.mem_flatMap.mpr ⟨p, hp, List.mem_map.mpr ⟨m, hm, rfl⟩⟩)

/-- Every frame collected in `preparedF` satisfies the key invariant. -/
theorem prepared_good {cfg : Config} {t : RawTable} {p : Str × List MRow}
    (hp : p ∈ preparedF cfg t) : ∀ m ∈ p.2, GoodK (mkey m) := by
  unfold preparedF at hp
  rcases List.mem_append.mp hp with h | hLSU
  · rcases List.mem_append.mp h with h | hTot
    · rcases List.mem_append.mp h with h | hN2O
      · rcases List.mem_append.mp h with hSt | hCH4
        · obtain ⟨h1, _⟩ := mem_ite_nil_ne hSt
          rw [List.mem_singleton] at h1
          rw [h1]
          exact fun m hm => stocksRows_good hm
        · obtain ⟨h1, _⟩ := mem_ite_nil_ne hCH4
          rw [List.mem_singleton] at h1
          rw [h1]
          exact fun m hm => groupSum_good (fun x hx => ch4Rows_good hx) hm
      · obtain ⟨h1, _⟩ := mem_ite_nil_ne hN2O
        rw [List.mem_singleton] at h1
        rw [h1]
        exact fun m hm => groupSum_good (fun x hx => n2oRows_good hx) hm
    · obtain ⟨h1, _⟩ := mem_ite_nil_ne hTot
      rw [List.mem_singleton] at h1
      rw [h1]
      exact fun m hm => totalRows_good
        (fun x hx => groupSum_good (fun z hz => ch4Rows_good hz) hx)
        (fun x hx => groupSum_good (fun z hz => n2oRows_good hz) hx) hm
  · obtain ⟨h1, _⟩ := mem_ite_nil_ne hLSU
    rw [List.mem_singleton] at h1
    rw [h1]
    exact fun m hm => lsuRows_good hm

/-- The only frame tagged `Total_CO2e` is the outer-merge frame, and it
is collected only when some gas data was present. -/
theorem mem_preparedF_total {cfg : Config} {t : RawTable}
    {p : Str × List MRow} (hp : p ∈ preparedF cfg t)
    (htag : p.1 = str "Total_CO2e") :
    p.2 = totalRows (groupSum (ch4Rows cfg t)) (groupSum (n2oRows cfg t)) ∧
    ((ch4Rows cfg t).isEmpty && (n2oRows cfg t).isEmpty) = false := by
  unfold preparedF at hp
  rcases List.mem_append.mp hp with h | hLSU
  · rcases List.mem_append.mp h with h | hTot
    · rcases List.mem_append.mp h with h | hN2O
      · rcases List.mem_append.mp h with hSt | hCH4
        · obtain ⟨h1, _⟩ := mem_ite_nil_ne hSt
          rw [List.mem_singleton] at h1
          rw [h1] at htag
          exact absurd (show str "Stocks" = str "Total_CO2e" from htag)
            (by decide)
        · obtain ⟨h1, _⟩ := mem_ite_nil_ne hCH4
          rw [List.mem_singleton] at h1
          rw [h1] at htag
          exact absurd (show str "CH4_CO2e" = str "Total_CO2e" from htag)
            (by decide)
      · obtain ⟨h1, _⟩ := mem_ite_nil_ne hN2O
        rw [List.mem_singleton] at h1
        rw [h1] at htag
        exact absurd (show str "N2O_CO2e" = str "Total_CO2e" from htag)
          (by decide)
    · obtain ⟨h1, hg⟩ := mem_ite_nil_ne hTot
      rw [List.mem_singleton] at h1
      rw [h1]
      exact ⟨rfl, Bool.eq_false_iff.mpr hg⟩
  · obtain ⟨h1, _⟩ := mem_ite_nil_ne hLSU
    rw [List.mem_singleton] at h1
    rw [h1] at htag
    exact absurd (show str "LSU" = str "Total_CO2e" from htag) (by decide)

theorem total_mem_preparedF {cfg : Config} {t : RawTable}
    (hne : ((ch4Rows cfg t).isEmpty && (n2oRows cfg t).isEmpty) = false) :
    (str "Total_CO2e",
      totalRows (groupSum (ch4Rows cfg t)) (groupSum (n2oRows cfg t))) ∈
      preparedF cfg t := by
  unfold preparedF
  refine List.mem_append_left _ (List.mem_append_right _ ?_)
  rw [if_neg (by rw [hne]; exact Bool.false_ne_true)]
  exact List.mem_singleton.mpr rfl

theorem groupSum_ne_nil {R : List MRow} (h : ¬ R = []) : ¬ groupSum R = [] := by
  unfold groupSum
  intro hc
  rw [List.map_eq_nil_iff, List.dedup_eq_nil, List.map_eq_nil_iff] at hc
  exact h hc

theorem totalRows_ne_nil {c n : List MRow} (h : ¬ c = [] ∨ ¬ n = []) :
    ¬ totalRows c n = [] := by
  unfold totalRows
  intro hnil
  rw [List.map_eq_nil_iff, List.append_eq_nil] at hnil
  obtain ⟨h1, h2⟩ := hnil
  rcases h with hc | hn
  · exact hc (List.map_eq_nil_iff.mp h1)
  · rw [h1] at h2
    obtain ⟨x, hx⟩ := List.exists_mem_of_ne_nil n hn
    have hxm : mkey x ∈ n.map mkey := List.mem_map_of_mem mkey hx
    have := List.filter_eq_nil_iff.mp h2 (mkey x) hxm
    simp at this

/-! ## C5: the Total derivation. -/

/-- Claim C5: in the outer-merged Total frame, a key carried by both
grouped gas frames gets the sum of the two values; a key carried by only
one side gets that side's value (the missing side contributing 0); and
Total rows appear in the written output iff at least one of the CH4/N2O
data sets was non-empty. -/
theorem C5_total_derivation (cfg : Config) (t : RawTable) :
    (∀ (k : MKey) (a b : ℚ),
      lookupV (groupSum (ch4Rows cfg t)) k = some a →
      lookupV (groupSum (n2oRows cfg t)) k = some b →
      lookupV (totalRows (groupSum (ch4Rows cfg t))
        (groupSum (n2oRows cfg t))) k = some (a + b)) ∧
    (∀ (k : MKey) (a : ℚ),
      lookupV (groupSum (ch4Rows cfg t)) k = some a →
      lookupV (groupSum (n2oRows cfg t)) k = none →
      lookupV (totalRows (groupSum (ch4Rows cfg t))
        (groupSum (n2oRows cfg t))) k = some a) ∧
    (∀ (k : MKey) (b : ℚ),
      lookupV (groupSum (ch4Rows cfg t)) k = none →
      lookupV (groupSum (n2oRows cfg t)) k = some b →
      lookupV (totalRows (groupSum (ch4Rows cfg t))
        (groupSum (n2oRows cfg t))) k = some b) ∧
    ((∃ r ∈ outRowsF cfg t, r.metric = str "Total_CO2e") ↔
      (¬ ch4Rows cfg t = [] ∨ ¬ n2oRows cfg t = [])) := by
  refine ⟨?_, ?_, ?_, ?_⟩
  · intro k a b ha hb
    rw [lookupV_totalRows,
        if_pos (Or.inl ((lookupV_isSome _ _).mp (by rw [ha]; rfl))), ha, hb]
    rfl
  · intro k a ha hb
    rw [lookupV_totalRows,
        if_pos (Or.inl ((lookupV_isSome _ _).mp (by rw [ha]; rfl))), ha, hb]
    show some (a + 0) = some a
    rw [add_zero]
  · intro k b ha hb
    rw [lookupV_totalRows,
        if_pos (Or.inr ((lookupV_isSome _ _).mp (by rw [hb]; rfl))), ha, hb]
    show some (0 + b) = some b
    rw [zero_add]
  · constructor
    · rintro ⟨r, hr, hmet⟩
      obtain ⟨p, hp, m, hm, hex, hre⟩ := mem_outRowsF.mp hr
      have hmetp : p.1 = str "Total_CO2e" := by rw [← hmet, hre]; rfl
      have hguard := (mem_preparedF_total hp hmetp).2
      rcases Bool.and_eq_false_iff.mp hguard with h | h
      · left
        intro hnil
        rw [hnil] at h
        exact absurd h (by decide)
      · right
        intro hnil
        rw [hnil] at h
        exact absurd h (by decide)
    · intro h
      have hne : ((ch4Rows cfg t).isEmpty && (n2oRows cfg t).isEmpty) = false := by
        rcases h with h | h
        · have hc : (ch4Rows cfg t).isEmpty = false := by
            cases hc2 : (ch4Rows cfg t).isEmpty
            · rfl
            · exact absurd (List.isEmpty_iff.mp hc2) h
          rw [hc, Bool.false_and]
        · have hc : (n2oRows cfg t).isEmpty = false := by
            cases hc2 : (n2oRows cfg t).isEmpty
            · rfl
            · exact absurd (List.isEmpty_iff.mp hc2) h
          rw [hc, Bool.and_false]
      have hTne : ¬ totalRows (groupSum (ch4Rows cfg t))
          (groupSum (n2oRows cfg t)) = [] := by
        refine totalRows_ne_nil ?_
        rcases h with h | h
        · exact Or.inl (groupSum_ne_nil h)
        · exact Or.inr (groupSum_ne_nil h)
      obtain ⟨m, hm⟩ := List.exists_mem_of_ne_nil _ hTne
      have hgood : GoodK (mkey m) :=
        totalRows_good
          (fun x hx => groupSum_good (fun z hz => ch4Rows_good hz) hx)
          (fun x hx => groupSum_good (fun z hz => n2oRows_good hz) hx) hm
      have hfix : canonical_item m.item = m.item := hgood.1
      have hex : excludeOK (canonical_item m.item) = true := by
        rw [hfix]
        exact hgood.2.1
      refine ⟨withFlags { toOutRow (str "Total_CO2e") m with
        item := canonical_item m.item }, ?_, rfl⟩
      exact mem_outRowsF.mpr
        ⟨(str "Total_CO2e", totalRows (groupSum (ch4Rows cfg t))
            (groupSum (n2oRows cfg t))), total_mem_preparedF hne, m, hm, hex, rfl⟩

unseal Rat.add Rat.mul Rat.inv Rat.sub Rat.ofScientific in
/-- Witness for `C5_total_derivation`: on `gasTable` the CH4 frame holds
272 = 10 × 27.2 and the N2O frame 546 = 2 × 273 at the shared key, and
the Total frame holds their sum. -/
theorem C5_witness :
    lookupV (totalRows (groupSum (ch4Rows defaultCfg gasTable))
      (groupSum (n2oRows defaultCfg gasTable))) gasKey = some (272 + 546) :=
  (C5_total_derivation defaultCfg gasTable).1 gasKey 272 546
    (by decide) (by decide)

/-! ## C2, amended: key uniqueness of the non-Stocks output rows. -/

theorem rgoodO_symm : ∀ {a b : OutRow}, RgoodO a b → RgoodO b a := by
  intro a b hab hc hk
  refine hab ⟨hc.1.symm, ?_⟩ hk.symm
  rw [← hc.1]
  exact hc.2

theorem pairwise_of_all {α : Type} {R : α → α → Prop} (h : ∀ a b, R a b) :
    ∀ l : List α, l.Pairwise R
  | [] => List.Pairwise.nil
  | a :: l => List.Pairwise.cons (fun b _ => h a b) (pairwise_of_all h l)

theorem totalRows_keys_nodup {c n : List MRow} (hc : (c.map mkey).Nodup)
    (hn : (n.map mkey).Nodup) : ((totalRows c n).map mkey).Nodup := by
  unfold totalRows
  rw [List.map_map]
  simp only [Function.comp_def, mkey_buildRow, List.map_id']
  rw [List.nodup_append]
  refine ⟨hc, hn.filter _, ?_⟩
  intro a ha hafil
  have hpred := (List.mem_filter.mp hafil).2
  rw [Bool.not_eq_eq_eq_not, Bool.not_true, Bool.eq_false_iff] at hpred
  exact hpred (List.elem_iff.mpr ha)

theorem lsuRows_keys_nodup (cfg : Config) (t : RawTable) :
    ((lsuRows cfg t).map mkey).Nodup := by
  simp only [lsuRows]
  exact groupSum_keys_nodup _

/-- Every collected frame either is the Stocks frame or has pairwise
distinct group keys. -/
theorem prepared_nodup_or_stocks {cfg : Config} {t : RawTable}
    {p : Str × List MRow} (hp : p ∈ preparedF cfg t) :
    p.1 = str "Stocks" ∨ ((p.2).map mkey).Nodup := by
  unfold preparedF at hp
  rcases List.mem_append.mp hp with h | hLSU
  · rcases List.mem_append.mp h with h | hTot
    · rcases List.mem_append.mp h with h | hN2O
      · rcases List.mem_append.mp h with hSt | hCH4
        · obtain ⟨h1, _⟩ := mem_ite_nil_ne hSt
          rw [List.mem_singleton] at h1
          rw [h1]
          exact Or.inl rfl
        · obtain ⟨h1, _⟩ := mem_ite_nil_ne hCH4
          rw [List.mem_singleton] at h1
          rw [h1]
          exact Or.inr (groupSum_keys_nodup _)
      · obtain ⟨h1, _⟩ := mem_ite_nil_ne hN2O
        rw [List.mem_singleton] at h1
        rw [h1]
        exact Or.inr (groupSum_keys_nodup _)
    · obtain ⟨h1, _⟩ := mem_ite_nil_ne hTot
      rw [List.mem_singleton] at h1
      rw [h1]
      exact Or.inr (totalRows_keys_nodup (groupSum_keys_nodup _)
        (groupSum_keys_nodup _))
  · obtain ⟨h1, _⟩ := mem_ite_nil_ne hLSU
    rw [List.mem_singleton] at h1
    rw [h1]
    exact Or.inr (lsuRows_keys_nodup cfg t)

/-- Helper: a chunk of `preparedF` is pairwise for any relation. -/
theorem chunk_pairwise {α : Type} {c : Prop} [Decidable c] {x : α}
    {R : α → α → Prop} : (if c then ([] : List α) else [x]).Pairwise R := by
  by_cases h : c
  · rw [if_pos h]
    exact List.Pairwise.nil
  · rw [if_neg h]
    exact List.pairwise_singleton R x

theorem chunk_mem {α : Type} {c : Prop} [Decidable c] {x p : α}
    (hp : p ∈ (if c then ([] : List α) else [x])) : p = x :=
  List.mem_singleton.mp (mem_ite_nil_ne hp).1

theorem pair_tag_ne {β γ : Type} {x y : Str} {b : β} {c : γ} (h : ¬ x = y) :
    ¬ (Prod.mk x b).1 = (Prod.mk y c).1 := fun hc => h hc

/-- The five frames carry pairwise distinct metric tags. -/
theorem prepared_tags_distinct (cfg : Config) (t : RawTable) :
    (preparedF cfg t).Pairwise (fun p q => ¬ p.1 = q.1) := by
  unfold preparedF
  refine List.pairwise_append.mpr ⟨?_, chunk_pairwise, ?_⟩
  · refine List.pairwise_append.mpr ⟨?_, chunk_pairwise, ?_⟩
    · refine List.pairwise_append.mpr ⟨?_, chunk_pairwise, ?_⟩
      · refine List.pairwise_append.mpr ⟨chunk_pairwise, chunk_pairwise, ?_⟩
        intro a ha b hb
        rw [chunk_mem ha, chunk_mem hb]
        exact pair_tag_ne (by decide)
      · intro a ha b hb
        rw [chunk_mem hb]
        rcases List.mem_append.mp ha with h | h <;> rw [chunk_mem h] <;>
          exact pair_tag_ne (by decide)
    · intro a ha b hb
      rw [chunk_mem hb]
      rcases List.mem_append.mp ha with h | h
      · rcases List.mem_append.mp h with h2 | h2 <;> rw [chunk_mem h2] <;>
          exact pair_tag_ne (by decide)
      · rw [chunk_mem h]
        exact pair_tag_ne (by decide)
  · intro a ha b hb
    rw [chunk_mem hb]
    rcases List.mem_append.mp ha with h | h
    · rcases List.mem_append.mp h with h2 | h2
      · rcases List.mem_append.mp h2 with h3 | h3 <;> rw [chunk_mem h3] <;>
          exact pair_tag_ne (by decide)
      · rw [chunk_mem h2]
        exact pair_tag_ne (by decide)
    · rw [chunk_mem h]
      exact pair_tag_ne (by decide)

/-- The concatenated, tagged rows satisfy `RgoodO` pairwise. -/
theorem concat_pairwise (cfg : Config) (t : RawTable) :
    ((preparedF cfg t).flatMap (fun p => p.2.map (toOutRow p.1))).Pairwise
      RgoodO := by
  refine List.pairwise_flatMap.mpr ⟨?_, ?_⟩
  · intro p hp
    rcases prepared_nodup_or_stocks hp with hst | hnodup
    · refine List.pairwise_map.mpr (pairwise_of_all ?_ _)
      intro a b hc
      exact absurd hst hc.2
    · refine List.pairwise_map.mpr ?_
      refine List.Pairwise.imp ?_ (List.pairwise_map.mp hnodup)
      intro a b hne hc hk
      exact hne hk
  · refine List.Pairwise.imp ?_ (prepared_tags_distinct cfg t)
    intro p q hne x hx y hy hc
    obtain ⟨mx, _, hmx⟩ := List.mem_map.mp hx
    obtain ⟨my, _, hmy⟩ := List.mem_map.mp hy
    have hxm : x.metric = p.1 := by rw [← hmx]; rfl
    have hym : y.metric = q.1 := by rw [← hmy]; rfl
    exact absurd (by rw [← hxm, ← hym]; exact hc.1) hne

/-- The re-canonicalization step of the writer is the identity: every
sorted row's item label is already a `canonical_item` fixed point. -/
theorem canoned_eq_sorted (cfg : Config) (t : RawTable) :
    ((((preparedF cfg t).flatMap (fun p => p.2.map (toOutRow p.1))).insertionSort
        (fun a b => outLe a b = true)).map
        (fun r => { r with item := canonical_item r.item })) =
      (((preparedF cfg t).flatMap (fun p => p.2.map (toOutRow p.1))).insertionSort
        (fun a b => outLe a b = true)) := by
  refine (List.map_congr_left ?_).trans (List.map_id _)
  intro r hr
  have hr2 : r ∈ (preparedF cfg t).flatMap (fun p => p.2.map (toOutRow p.1)) :=
    (List.perm_insertionSort _ _).mem_iff.mp hr
  obtain ⟨p, hp, hmap⟩ := List.mem_flatMap.mp hr2
  obtain ⟨m, hm, hmr⟩ := List.mem_map.mp hmap
  have hfix : canonical_item m.item = m.item := (prepared_good hp m hm).1
  rw [← hmr]
  show { toOutRow p.1 m with
    item := canonical_item (toOutRow p.1 m).item } = toOutRow p.1 m
  rw [show canonical_item (toOutRow p.1 m).item = (toOutRow p.1 m).item
    from hfix]

/-- The final output is pairwise `RgoodO`. -/
theorem out_pairwise (cfg : Config) (t : RawTable) :
    (outRowsF cfg t).Pairwise RgoodO := by
  have hsorted : ((((preparedF cfg t).flatMap
      (fun p => p.2.map (toOutRow p.1))).insertionSort
      (fun a b => outLe a b = true))).Pairwise RgoodO :=
    ((List.perm_insertionSort _ _).pairwise_iff
      (fun h => rgoodO_symm h)).mpr (concat_pairwise cfg t)
  simp only [outRowsF]
  rw [canoned_eq_sorted]
  refine List.pairwise_map.mpr ?_
  refine List.Pairwise.imp ?_ (List.Pairwise.filter _ hsorted)
  intro a b hab
  exact fun hc => hab hc

/-- Every final output row satisfies the key invariant. -/
theorem outRowsF_good {cfg : Config} {t : RawTable} {r : OutRow}
    (hr : r ∈ outRowsF cfg t) : GoodK (okey r) := by
  obtain ⟨p, hp, m, hm, _, hre⟩ := mem_outRowsF.mp hr
  have hg := prepared_good hp m hm
  have hfix : canonical_item m.item = m.item := hg.1
  have hkey : okey r = mkey m := by
    rw [hre]
    show MKey.mk m.area (canonical_item m.item) m.year m.kind m.isAll
      m.isAgg m.isAtomic = mkey m
    rw [hfix]
    rfl
  rw [hkey]
  exact hg

/-- Claim C2, amended: among the output rows whose metric is not
`Stocks`, the (Area, Item, Year, Metric) tuples are pairwise distinct.
(The Stocks frame is emitted without grouping, so only it can repeat a
key tuple.) -/
theorem C2_amended (cfg : Config) (t : RawTable) (out : List OutRow)
    (hrun : runPipeline cfg t = Except.ok out) :
    keysUnique (out.filter (fun r => !(r.metric == str "Stocks"))) := by
  rw [runPipeline_ok hrun]
  refine List.Pairwise.imp_of_mem ?_
    (List.Pairwise.filter _ (out_pairwise cfg t))
  intro a b ha hb hab hkey4
  have hga : GoodK (okey a) := outRowsF_good (List.mem_of_mem_filter ha)
  have hgb : GoodK (okey b) := outRowsF_good (List.mem_of_mem_filter hb)
  have hns : ¬ a.metric = str "Stocks" := by
    have := (List.mem_filter.mp ha).2
    rw [Bool.not_eq_eq_eq_not, Bool.not_true, Bool.eq_false_iff] at this
    intro hc
    exact this (beq_iff_eq.mpr hc)
  have h1 : a.area = b.area := congrArg Prod.fst hkey4
  have h2 : a.item = b.item := congrArg (fun z => z.2.1) hkey4
  have h3 : a.year = b.year := congrArg (fun z => z.2.2.1) hkey4
  have h4 : a.metric = b.metric := congrArg (fun z => z.2.2.2) hkey4
  have hka : a.kind = item_kind a.item := hga.2.2.1
  have hkb : b.kind = item_kind b.item := hgb.2.2.1
  have hAlla : a.isAll = (item_kind a.item == str "All") := hga.2.2.2.1
  have hAllb : b.isAll = (item_kind b.item == str "All") := hgb.2.2.2.1
  have hAgga : a.isAgg = (item_kind a.item == str "aggregated") :=
    hga.2.2.2.2.1
  have hAggb : b.isAgg = (item_kind b.item == str "aggregated") :=
    hgb.2.2.2.2.1
  have hAtoma : a.isAtomic = (item_kind a.item == str "atomic") :=
    hga.2.2.2.2.2
  have hAtomb : b.isAtomic = (item_kind b.item == str "atomic") :=
    hgb.2.2.2.2.2
  refine hab ⟨h4, hns⟩ ?_
  show MKey.mk a.area a.item a.year a.kind a.isAll a.isAgg a.isAtomic =
    MKey.mk b.area b.item b.year b.kind b.isAll b.isAgg b.isAtomic
  rw [h1, h2, h3, hka, hkb, hAlla, hAllb, hAgga, hAggb, hAtoma, hAtomb, h2]

unseal Rat.add Rat.mul Rat.inv Rat.sub Rat.ofScientific in
/-- Witness for `C2_amended` on the duplicate-stocks input: its
non-Stocks output rows have pairwise distinct key tuples. -/
theorem C2_witness :
    keysUnique ((outRowsF defaultCfg dupTable).filter
      (fun r => !(r.metric == str "Stocks"))) :=
  C2_amended defaultCfg dupTable (outRowsF defaultCfg dupTable) (by decide)

end Livestock
